import Mathlib

/-!
Shallow embedding of the LocalPDFVault sources (`pdfscanner.py`, `webapp.py`)
and proofs about the claims of its specification.

Conventions of the embedding:
* Python `str` values used as raw text are modelled as `List Char`
  (for the text-processing algorithms) or `String` (for opaque keys and
  stored field values).
* Machine-level effects of the host environment (the filesystem, the Ollama
  vision service, SQLite success/failure of a write) are modelled as explicit
  inputs of the functions that consume them.
* Calls into the Python standard library (`hashlib.sha256`, `json.dumps` /
  `json.loads`, `difflib.get_close_matches`, `str.lower`, `str.split`,
  `os.path.basename`) are modelled by executable Lean functions implementing
  the documented behaviour of those library routines on the value domain the
  program actually uses (byte lists, lists of strings, ASCII lowering).
-/

/-! ### Python string primitives -/

/-- `str.lower` on one character (ASCII case mapping, which is the fragment
the program relies on). -/
def lowerChar (c : Char) : Char :=
  if 'A' ≤ c ∧ c ≤ 'Z' then Char.ofNat (c.toNat + 32) else c

/-- `str.lower` over the characters of a string. -/
def lowerStr (s : List Char) : List Char := s.map lowerChar

/-- Whitespace as recognised by Python's `str.split()` (the characters the
program's inputs can contain). -/
def isWS (c : Char) : Bool := c = ' ' || c = '\t' || c = '\n' || c = '\r'

/-- Worker for `splitWS`: `cur` is the reversed current token. -/
def splitWSGo : List Char → List Char → List (List Char)
  | cur, [] => if cur = [] then [] else [cur.reverse]
  | cur, c :: cs =>
    if isWS c then
      if cur = [] then splitWSGo [] cs else cur.reverse :: splitWSGo [] cs
    else
      splitWSGo (c :: cur) cs

/-- Python `str.split()` with no argument: split on whitespace runs,
producing no empty tokens. -/
def splitWS (l : List Char) : List (List Char) := splitWSGo [] l

/-- Whether `p` starts the list `l`, written out explicitly. -/
def listStartsWith : List Char → List Char → Bool
  | [], _ => true
  | _ :: _, [] => false
  | p :: ps, c :: cs => p = c && listStartsWith ps cs

/-- Python's substring test `p in l`. -/
def isSubstr (p : List Char) : List Char → Bool
  | [] => listStartsWith p []
  | c :: cs => listStartsWith p (c :: cs) || isSubstr p cs

/-- Worker for `countOcc`: `skip` characters are still covered by the last
counted occurrence and may not start a new one. -/
def countOccGo (p : List Char) : Nat → List Char → Nat
  | _, [] => 0
  | k + 1, _ :: cs => countOccGo p k cs
  | 0, c :: cs =>
    if listStartsWith p (c :: cs) then 1 + countOccGo p (p.length - 1) cs
    else countOccGo p 0 cs

/-- Python `text.count(p)` for a non-empty pattern: number of
non-overlapping occurrences, scanning left to right. -/
def countOcc (p text : List Char) : Nat := countOccGo p 0 text

/-- `os.path.basename`: the part of the path after the last `/`. -/
def basename (p : String) : String :=
  String.mk ((p.data.reverse.takeWhile (fun c => c ≠ '/')).reverse)

/-- Lexicographic comparison of strings by code point, as Python's `<=` on
`str` behaves on the timestamp strings the program compares. -/
def strLeGo : List Char → List Char → Bool
  | [], _ => true
  | _ :: _, [] => false
  | a :: as_, b :: bs =>
    if a.toNat < b.toNat then true
    else if b.toNat < a.toNat then false
    else strLeGo as_ bs

/-- String `<=` by code points. -/
def strLe (a b : String) : Bool := strLeGo a.data b.data

/-! ### The relevance scorer, `DatabaseManager._calculate_relevance_score`

The scorer is translated as a sequential accumulation over a state holding
the running score and the Python sets `exact_matched_terms` /
`fuzzy_matched_terms`, mirroring the four loops of the source.  The call
`difflib.get_close_matches(term, words, n=5, cutoff=0.7)` is an external
standard-library routine; it enters the model as the function parameter
`cm`, applied exactly where the source applies it. -/

/-- Insertion into a Python `set`, represented as a duplicate-free list. -/
def pySetInsert (s : List (List Char)) (x : List Char) : List (List Char) :=
  if x ∈ s then s else x :: s

/-- The mutable state of `_calculate_relevance_score`. -/
structure ScoreState where
  score : Nat
  exact : List (List Char)
  fuzzy : List (List Char)
deriving DecidableEq

/-- Tier 3 loop body: one term of the `for term in terms` loop.  The three
`score +=` statements of the source are written as one sum; the frequency
bonus is `5 * (count - 1)` guarded by `1 < count` exactly as in the source. -/
def tier3Step (text : List Char) (st : ScoreState) (t : List Char) : ScoreState :=
  if isSubstr (lowerStr t) text then
    { score := st.score + 50 +
        (if 1 < countOcc (lowerStr t) text then 5 * (countOcc (lowerStr t) text - 1) else 0) +
        (if ((splitWS text).take 20).any (fun w => isSubstr (lowerStr t) w) then 10 else 0),
      exact := pySetInsert st.exact (lowerStr t),
      fuzzy := st.fuzzy }
  else st

/-- Tier 4 loop body: one term of the fuzzy-matching loop. -/
def tier4Step (cm : List Char → List (List Char) → List (List Char))
    (wordsInText : List (List Char)) (st : ScoreState) (t : List Char) : ScoreState :=
  if lowerStr t ∈ st.exact then st
  else if cm (lowerStr t) wordsInText ≠ [] then
    { st with fuzzy := pySetInsert st.fuzzy (lowerStr t),
              score := st.score + 5 * (cm (lowerStr t) wordsInText).length }
  else st

/-- The `for term in terms: exact_matched_terms.add(term.lower())` loops of
tiers 1 and 2. -/
def markAllTerms (terms : List (List Char)) (s : List (List Char)) : List (List Char) :=
  terms.foldl (fun s t => pySetInsert s (lowerStr t)) s

/-- The state after tier 1 (exact phrase match, +1000, marking every term). -/
def tier1State (queryLower : List Char) (terms : List (List Char))
    (text : List Char) : ScoreState :=
  if isSubstr queryLower text then ⟨0 + 1000, markAllTerms terms [], []⟩ else ⟨0, [], []⟩

/-- The state after tier 2 (all terms present and more than one term, +500). -/
def tier2State (queryLower : List Char) (terms : List (List Char))
    (text : List Char) : ScoreState :=
  if (terms.all fun t => isSubstr (lowerStr t) text) && decide (1 < terms.length) then
    { tier1State queryLower terms text with
        score := (tier1State queryLower terms text).score + 500,
        exact := markAllTerms terms (tier1State queryLower terms text).exact }
  else tier1State queryLower terms text

/-- The state after all four scoring loops. -/
def tier4State (cm : List Char → List (List Char) → List (List Char))
    (queryLower : List Char) (terms : List (List Char)) (text : List Char) : ScoreState :=
  terms.foldl (tier4Step cm (splitWS text))
    (terms.foldl (tier3Step text) (tier2State queryLower terms text))

/-- `DatabaseManager._calculate_relevance_score(query_lower, terms, text)`.
`cm` stands for `difflib.get_close_matches` with `n=5, cutoff=0.7`.
The score is returned only when at least one exact or fuzzy match was
recorded (`has_any_match` in the source). -/
def calculate_relevance_score (cm : List Char → List (List Char) → List (List Char))
    (queryLower : List Char) (terms : List (List Char)) (text : List Char) : Nat :=
  if text = [] then 0
  else if (tier4State cm queryLower terms text).exact ≠ [] ∨
          (tier4State cm queryLower terms text).fuzzy ≠ [] then
    (tier4State cm queryLower terms text).score
  else 0

/-! ### Spec-side formulation of the four tiers -/

/-- Tier 1 of the spec: +1000 iff the full lowercase query occurs verbatim. -/
def specTier1 (queryLower text : List Char) : Nat :=
  if isSubstr queryLower text then 1000 else 0

/-- Tier 2 of the spec: +500 iff there are at least two terms and every term
occurs (case-insensitively) in the blob. -/
def specTier2 (terms : List (List Char)) (text : List Char) : Nat :=
  if 2 ≤ terms.length ∧ ∀ t ∈ terms, isSubstr (lowerStr t) text then 500 else 0

/-- The tier-3 contribution of a single term: +50 for presence, +5 per
occurrence beyond the first, +10 if the term occurs among the first 20
whitespace-split words. -/
def specTier3Term (text t : List Char) : Nat :=
  if isSubstr (lowerStr t) text then
    50 + 5 * (countOcc (lowerStr t) text - 1) +
      (if ((splitWS text).take 20).any (fun w => isSubstr (lowerStr t) w) then 10 else 0)
  else 0

/-- Tier 3 of the spec, summed over all terms. -/
def specTier3 (terms : List (List Char)) (text : List Char) : Nat :=
  (terms.map (specTier3Term text)).sum

/-- The tier-4 contribution of a single term: +5 per close word returned by
the fuzzy matcher, but only for terms with no exact substring match. -/
def specTier4Term (cm : List Char → List (List Char) → List (List Char))
    (text t : List Char) : Nat :=
  if isSubstr (lowerStr t) text then 0 else 5 * (cm (lowerStr t) (splitWS text)).length

/-- Tier 4 of the spec, summed over all terms. -/
def specTier4 (cm : List Char → List (List Char) → List (List Char))
    (terms : List (List Char)) (text : List Char) : Nat :=
  (terms.map (specTier4Term cm text)).sum

/-! ### The search pipeline, `DatabaseManager.search_metadata` -/

/-- One record as seen by the search path (a parsed `pdf_metadata` row, with
the `or ''` defaults of `search_metadata` already applied). -/
structure SearchDoc where
  file_hash : String
  filename : String
  subject : String
  summary : String
  date : String
  sender : String
  recipient : String
  document_type : String
  tags : List String
  error : Option String
  last_updated : String
deriving DecidableEq

/-- The lowercase searchable blob:
`' '.join([filename, subject, summary, sender, recipient, document_type,
' '.join(tags)]).lower()`. -/
def searchableText (d : SearchDoc) : List Char :=
  lowerStr (String.intercalate " " [d.filename, d.subject, d.summary, d.sender,
    d.recipient, d.document_type, String.intercalate " " d.tags]).data

/-- One entry of the `search_matches` annotation. -/
structure TermMatch where
  term : List Char
  fields : List String
deriving DecidableEq

/-- `DatabaseManager._find_term_matches`. -/
def find_term_matches (terms : List (List Char)) (d : SearchDoc) : List TermMatch :=
  terms.filterMap fun t =>
    let fieldHits := ([("filename", d.filename), ("subject", d.subject),
        ("summary", d.summary), ("sender", d.sender), ("recipient", d.recipient),
        ("type", d.document_type)].filter
      (fun p => p.2 ≠ "" && isSubstr (lowerStr t) (lowerStr p.2.data))).map Prod.fst
    let tagHit : List String :=
      if d.tags.any (fun tag => isSubstr (lowerStr t) (lowerStr tag.data)) then ["tags"]
      else []
    if fieldHits ++ tagHit ≠ [] then some ⟨t, fieldHits ++ tagHit⟩ else none

/-- One scored result entry (the doc dict copied and extended with
`relevance_score` and `search_matches`). -/
structure SearchHit where
  doc : SearchDoc
  relevance_score : Nat
  search_matches : List TermMatch
deriving DecidableEq

/-- Insertion step of a stable sort: `x` goes in front of the first element
it compares `le` to, hence before no element it ties with that preceded it. -/
def insertStable {α : Type} (le : α → α → Bool) (x : α) : List α → List α
  | [] => [x]
  | y :: ys => if le x y then x :: y :: ys else y :: insertStable le x ys

/-- Stable sort (Python `list.sort`: stable sorts by one key are
extensionally unique, so insertion sort models Timsort faithfully). -/
def stableSort {α : Type} (le : α → α → Bool) : List α → List α
  | [] => []
  | x :: xs => insertStable le x (stableSort le xs)

/-- First sort of `search_metadata`:
`key=lambda x: (-x['relevance_score'], x.get('last_updated', '') or '')`,
ascending.  `a` may stay before `b` iff the key of `a` is `<=`. -/
def sortKey1Le (a b : SearchHit) : Bool :=
  if b.relevance_score < a.relevance_score then true
  else if a.relevance_score < b.relevance_score then false
  else strLe a.doc.last_updated b.doc.last_updated

/-- Second sort of `search_metadata`:
`key=lambda x: x['relevance_score'], reverse=True` (stable). -/
def sortKey2Le (a b : SearchHit) : Bool :=
  decide (b.relevance_score ≤ a.relevance_score)

/-- `DatabaseManager.search_metadata(query, limit)` over an in-memory record
list; `cm` is `difflib.get_close_matches` as in the scorer. -/
def search_metadata (cm : List Char → List (List Char) → List (List Char))
    (query : String) (limit : Nat) (docs : List SearchDoc) : List SearchHit :=
  let terms := splitWS query.data
  if terms = [] then []
  else
    let scored := docs.filterMap fun d =>
      let score := calculate_relevance_score cm (lowerStr query.data) terms
        (searchableText d)
      if 0 < score then some ⟨d, score, find_term_matches terms d⟩ else none
    (stableSort sortKey2Le (stableSort sortKey1Le scored)).take limit

/-! ### JSON serialisation of the `tags` column

`store_metadata` persists tags as `json.dumps(tags)` and `get_metadata`
revives them with `json.loads`.  Both stdlib routines are modelled here on
the value domain the program uses: lists of strings, with the default
`ensure_ascii=True` escaping and the default `', '` separator. -/

/-- The sixteen lowercase hex digits. -/
def hexDigits : List Char := "0123456789abcdef".data

/-- The hex digit of a nibble. -/
def toHexDigit (n : Nat) : Char := hexDigits.getD n '0'

/-- Value of one hex digit, accepting both cases as `json.loads` does. -/
def fromHexDigit (c : Char) : Option Nat :=
  if '0' ≤ c ∧ c ≤ '9' then some (c.toNat - 48)
  else if 'a' ≤ c ∧ c ≤ 'f' then some (c.toNat - 87)
  else if 'A' ≤ c ∧ c ≤ 'F' then some (c.toNat - 55)
  else none

/-- Four lowercase hex digits of a 16-bit value (`\uXXXX` payload). -/
def hex4 (n : Nat) : List Char :=
  [toHexDigit (n / 4096 % 16), toHexDigit (n / 256 % 16),
   toHexDigit (n / 16 % 16), toHexDigit (n % 16)]

/-- `json.dumps` escaping of one character with `ensure_ascii=True`:
`"` and `\` are escaped, the five C escapes are used for their control
characters, all other characters outside printable ASCII `0x20..0x7e` become
`\uXXXX` (as a surrogate pair beyond the BMP). -/
def encChar (c : Char) : List Char :=
  if c = '"' then ['\\', '"']
  else if c = '\\' then ['\\', '\\']
  else if c = '\n' then ['\\', 'n']
  else if c = '\r' then ['\\', 'r']
  else if c = '\t' then ['\\', 't']
  else if c.toNat = 8 then ['\\', 'b']
  else if c.toNat = 12 then ['\\', 'f']
  else if c.toNat < 32 ∨ 127 ≤ c.toNat then
    if c.toNat < 65536 then '\\' :: 'u' :: hex4 c.toNat
    else
      ('\\' :: 'u' :: hex4 (55296 + (c.toNat - 65536) / 1024)) ++
        ('\\' :: 'u' :: hex4 (56320 + (c.toNat - 65536) % 1024))
  else [c]

/-- A JSON string literal for `s`, quotes included. -/
def encodeJsonString (s : String) : List Char :=
  '"' :: (s.data.map encChar).flatten ++ ['"']

/-- `sep.join(parts)` (Python separator join). -/
def joinSep (sep : List Char) : List (List Char) → List Char
  | [] => []
  | [x] => x
  | x :: y :: xs => x ++ sep ++ joinSep sep (y :: xs)

/-- `json.dumps(l)` for a list of strings (default separator `', '`). -/
def json_dumps_strings (l : List String) : String :=
  String.mk ('[' :: joinSep [',', ' '] (l.map encodeJsonString) ++ [']'])

/-- JSON whitespace. -/
def jsonWS (c : Char) : Bool := c = ' ' || c = '\t' || c = '\n' || c = '\r'

/-- Skip JSON whitespace. -/
def skipJsonWS (cs : List Char) : List Char := cs.dropWhile jsonWS

/-- Fuel-indexed parser of a JSON string body, positioned after the opening
quote; returns the decoded characters and the input after the closing
quote.  Escapes are decoded as `json.loads` does, including surrogate
pairs; lone surrogates are rejected. -/
def jsonStringBody : Nat → List Char → Option (List Char × List Char)
  | 0, _ => none
  | _ + 1, [] => none
  | f + 1, c :: cs =>
    if c = '"' then some ([], cs)
    else if c = '\\' then
      match cs with
      | [] => none
      | e :: cs2 =>
        if e = '"' then (jsonStringBody f cs2).map (fun r => ('"' :: r.1, r.2))
        else if e = '\\' then (jsonStringBody f cs2).map (fun r => ('\\' :: r.1, r.2))
        else if e = '/' then (jsonStringBody f cs2).map (fun r => ('/' :: r.1, r.2))
        else if e = 'n' then (jsonStringBody f cs2).map (fun r => ('\n' :: r.1, r.2))
        else if e = 'r' then (jsonStringBody f cs2).map (fun r => ('\r' :: r.1, r.2))
        else if e = 't' then (jsonStringBody f cs2).map (fun r => ('\t' :: r.1, r.2))
        else if e = 'b' then (jsonStringBody f cs2).map (fun r => (Char.ofNat 8 :: r.1, r.2))
        else if e = 'f' then (jsonStringBody f cs2).map (fun r => (Char.ofNat 12 :: r.1, r.2))
        else if e = 'u' then
          match cs2 with
          | h1 :: h2 :: h3 :: h4 :: cs3 =>
            match fromHexDigit h1, fromHexDigit h2, fromHexDigit h3, fromHexDigit h4 with
            | some d1, some d2, some d3, some d4 =>
              let n := d1 * 4096 + d2 * 256 + d3 * 16 + d4
              if 55296 ≤ n ∧ n < 56320 then
                match cs3 with
                | '\\' :: 'u' :: k1 :: k2 :: k3 :: k4 :: cs4 =>
                  match fromHexDigit k1, fromHexDigit k2, fromHexDigit k3, fromHexDigit k4 with
                  | some e1, some e2, some e3, some e4 =>
                    let m := e1 * 4096 + e2 * 256 + e3 * 16 + e4
                    if 56320 ≤ m ∧ m < 57344 then
                      (jsonStringBody f cs4).map (fun r =>
                        (Char.ofNat (65536 + (n - 55296) * 1024 + (m - 56320)) :: r.1, r.2))
                    else none
                  | _, _, _, _ => none
                | _ => none
              else if 56320 ≤ n ∧ n < 57344 then none
              else (jsonStringBody f cs3).map (fun r => (Char.ofNat n :: r.1, r.2))
            | _, _, _, _ => none
          | _ => none
        else none
    else (jsonStringBody f cs).map (fun r => (c :: r.1, r.2))

/-- Parse the elements of a JSON array of strings (positioned at the start
of an element); fuel bounds the number of elements.  After each string the
parser accepts either `]` (end of array) or `,` followed by the next
element, skipping JSON whitespace in between. -/
def jsonArrayElems : Nat → List Char → Option (List String × List Char)
  | 0, _ => none
  | f + 1, '"' :: cs1 =>
    (jsonStringBody (cs1.length + 1) cs1).bind fun pr =>
      if (skipJsonWS pr.2).take 1 = [']'] then
        some ([String.mk pr.1], (skipJsonWS pr.2).drop 1)
      else if (skipJsonWS pr.2).take 1 = [','] then
        (jsonArrayElems f (skipJsonWS ((skipJsonWS pr.2).drop 1))).map
          (fun r => (String.mk pr.1 :: r.1, r.2))
      else none
  | _ + 1, _ => none

/-- The body of a JSON array, positioned after the `[`. -/
def jsonParseArrayBody (cs : List Char) : Option (List String) :=
  if (skipJsonWS cs).take 1 = [']'] then
    if skipJsonWS ((skipJsonWS cs).drop 1) = [] then some [] else none
  else
    (jsonArrayElems ((skipJsonWS cs).length + 1) (skipJsonWS cs)).bind fun r =>
      if skipJsonWS r.2 = [] then some r.1 else none

/-- `json.loads(s)` restricted to arrays of strings, the only shape the
program ever stores in the `tags` column; anything else is a parse failure
(`json.loads` raises, which the callers catch). -/
def json_loads_strings (s : String) : Option (List String) :=
  match skipJsonWS s.data with
  | '[' :: cs => jsonParseArrayBody cs
  | _ => none

/-! ### The metadata store (`pdf_metadata` table) -/

/-- A row of `pdf_metadata`; the primary key `file_hash` is the key of the
association list holding the table. -/
structure MetadataRow where
  filename : Option String
  subject : Option String
  summary : Option String
  date : Option String
  sender : Option String
  recipient : Option String
  document_type : Option String
  tagsJson : String
  error : Option String
  last_updated : String
deriving DecidableEq

/-- The `pdf_metadata` table. -/
abbrev MetaDB := List (String × MetadataRow)

/-- `DELETE FROM pdf_metadata WHERE file_hash = ?`. -/
def dbDelete (db : MetaDB) (h : String) : MetaDB :=
  db.filter (fun p => !(p.1 == h))

/-- `INSERT OR REPLACE` keyed on `file_hash`. -/
def dbUpsert (db : MetaDB) (h : String) (r : MetadataRow) : MetaDB :=
  (h, r) :: dbDelete db h

/-- `SELECT * FROM pdf_metadata WHERE file_hash = ?`. -/
def dbLookup (db : MetaDB) (h : String) : Option MetadataRow :=
  (db.find? (fun p => p.1 == h)).map Prod.snd

/-- The metadata dictionary handed to `store_metadata` (shape produced by
`process_pdf`; absent dict keys surface as `none`). -/
structure MetadataDict where
  file_hash : String
  filename : Option String
  subject : Option String
  summary : Option String
  date : Option String
  sender : Option String
  recipient : Option String
  document_type : Option String
  tags : List String
  error : Option String
deriving DecidableEq

/-- `DatabaseManager.store_metadata`: upsert of the row, tags serialised
with `json.dumps`; `now` is `CURRENT_TIMESTAMP` at the write. -/
def store_metadata (db : MetaDB) (now : String) (m : MetadataDict) : MetaDB :=
  dbUpsert db m.file_hash
    { filename := m.filename, subject := m.subject, summary := m.summary,
      date := m.date, sender := m.sender, recipient := m.recipient,
      document_type := m.document_type, tagsJson := json_dumps_strings m.tags,
      error := m.error, last_updated := now }

/-- The dictionary returned by `get_metadata`. -/
structure MetadataOut where
  file_hash : String
  filename : Option String
  subject : Option String
  summary : Option String
  date : Option String
  sender : Option String
  recipient : Option String
  document_type : Option String
  tags : List String
  error : Option String
  last_updated : String
deriving DecidableEq

/-- `DatabaseManager.get_metadata`: row lookup plus
`json.loads(row[8]) if row[8] else []` for the tags; a tags-parse failure
raises and is caught by the surrounding handler, which returns `None`. -/
def get_metadata (db : MetaDB) (h : String) : Option MetadataOut :=
  match dbLookup db h with
  | none => none
  | some row =>
    match (if row.tagsJson ≠ "" then json_loads_strings row.tagsJson else some []) with
    | none => none
    | some tags =>
      some { file_hash := h, filename := row.filename, subject := row.subject,
             summary := row.summary, date := row.date, sender := row.sender,
             recipient := row.recipient, document_type := row.document_type,
             tags := tags, error := row.error, last_updated := row.last_updated }

/-! ### SHA-256 (`hashlib.sha256`) over byte lists -/

/-- Truncation to a 32-bit word. -/
def w32 (n : Nat) : Nat := n % 4294967296

/-- Right rotation of a 32-bit word by `k`. -/
def rotr32 (k x : Nat) : Nat := w32 (x / 2 ^ k + x % 2 ^ k * 2 ^ (32 - k))

/-- SHA-256 `Ch`. -/
def shaCh (x y z : Nat) : Nat := (x &&& y) ^^^ ((x ^^^ 4294967295) &&& z)

/-- SHA-256 `Maj`. -/
def shaMaj (x y z : Nat) : Nat := (x &&& y) ^^^ (x &&& z) ^^^ (y &&& z)

/-- SHA-256 `Σ₀`. -/
def bigSigma0 (x : Nat) : Nat := rotr32 2 x ^^^ rotr32 13 x ^^^ rotr32 22 x

/-- SHA-256 `Σ₁`. -/
def bigSigma1 (x : Nat) : Nat := rotr32 6 x ^^^ rotr32 11 x ^^^ rotr32 25 x

/-- SHA-256 `σ₀`. -/
def smallSigma0 (x : Nat) : Nat := rotr32 7 x ^^^ rotr32 18 x ^^^ (x >>> 3)

/-- SHA-256 `σ₁`. -/
def smallSigma1 (x : Nat) : Nat := rotr32 17 x ^^^ rotr32 19 x ^^^ (x >>> 10)

/-- The 64 round constants. -/
def shaK : List Nat :=
  [1116352408, 1899447441, 3049323471, 3921009573,
   961987163, 1508970993, 2453635748, 2870763221,
   3624381080, 310598401, 607225278, 1426881987,
   1925078388, 2162078206, 2614888103, 3248222580,
   3835390401, 4022224774, 264347078, 604807628,
   770255983, 1249150122, 1555081692, 1996064986,
   2554220882, 2821834349, 2952996808, 3210313671,
   3336571891, 3584528711, 113926993, 338241895,
   666307205, 773529912, 1294757372, 1396182291,
   1695183700, 1986661051, 2177026350, 2456956037,
   2730485921, 2820302411, 3259730800, 3345764771,
   3516065817, 3600352804, 4094571909, 275423344,
   430227734, 506948616, 659060556, 883997877,
   958139571, 1322822218, 1537002063, 1747873779,
   1955562222, 2024104815, 2227730452, 2361852424,
   2428436474, 2756734187, 3204031479, 3329325298]

/-- The initial hash value. -/
def shaH0 : List Nat :=
  [1779033703, 3144134277, 1013904242, 2773480762,
   1359893119, 2600822924, 528734635, 1541459225]

/-- Extend a 16-word block to the 64-word message schedule. -/
def shaSchedule (ws : List Nat) : List Nat :=
  (List.range 64).foldl
    (fun acc i =>
      if i < 16 then acc ++ [ws.getD i 0]
      else acc ++ [w32 (smallSigma1 (acc.getD (i - 2) 0) + acc.getD (i - 7) 0 +
        smallSigma0 (acc.getD (i - 15) 0) + acc.getD (i - 16) 0)]) []

/-- One compression round on the 8-word working state. -/
def shaRound (st : List Nat) (kw : Nat × Nat) : List Nat :=
  match st with
  | [a, b, c, d, e, f, g, hh] =>
    [w32 (w32 (hh + bigSigma1 e + shaCh e f g + kw.1 + kw.2) +
       w32 (bigSigma0 a + shaMaj a b c)),
     a, b, c,
     w32 (d + w32 (hh + bigSigma1 e + shaCh e f g + kw.1 + kw.2)),
     e, f, g]
  | _ => st

/-- Compress one 16-word block into the running hash. -/
def shaCompress (hs : List Nat) (block : List Nat) : List Nat :=
  ((hs.zip ((shaK.zip (shaSchedule block)).foldl shaRound hs)).map
    (fun p => w32 (p.1 + p.2)))

/-- Big-endian word value of a byte list. -/
def be32 (bytes : List Nat) : Nat := bytes.foldl (fun acc b => acc * 256 + b) 0

/-- Split into chunks of `k + 1` elements (last chunk possibly shorter). -/
def chunksOfSucc {α : Type} (k : Nat) : List α → List (List α)
  | [] => []
  | a :: l => ((a :: l).take (k + 1)) :: chunksOfSucc k ((a :: l).drop (k + 1))
termination_by l => l.length
decreasing_by simp [List.length_drop]; omega

/-- The 8-byte big-endian encoding of the 64-bit message bit length. -/
def be64Bytes (n : Nat) : List Nat :=
  [n / 2 ^ 56 % 256, n / 2 ^ 48 % 256, n / 2 ^ 40 % 256, n / 2 ^ 32 % 256,
   n / 2 ^ 24 % 256, n / 2 ^ 16 % 256, n / 2 ^ 8 % 256, n % 256]

/-- MD-style padding: `0x80`, zeros to 56 mod 64, 8 length bytes. -/
def padMessage (msg : List Nat) : List Nat :=
  msg ++ [128] ++ List.replicate ((119 - msg.length % 64) % 64) 0 ++
    be64Bytes (msg.length * 8)

/-- The eight 32-bit words of the SHA-256 digest of a byte list. -/
def sha256Words (msg : List Nat) : List Nat :=
  ((chunksOfSucc 63 (padMessage msg)).map
    (fun b => (chunksOfSucc 3 b).map be32)).foldl shaCompress shaH0

/-- Eight lowercase hex digits of a 32-bit word. -/
def wordHex8 (w : Nat) : List Char := hex4 (w / 65536 % 65536) ++ hex4 (w % 65536)

/-- `hashlib.sha256(data).hexdigest()`. -/
def sha256_hexdigest (msg : List Nat) : String :=
  String.mk ((sha256Words msg).map wordHex8).flatten

/-! ### `PDFScanner.generate_file_hash` -/

/-- A Python exception raised by the modelled stdlib calls. -/
inductive PyExn where
  | ioError (msg : String)
deriving DecidableEq

/-- The filesystem: path to byte content, `none` when the file cannot be
opened or read. -/
abbrev FileSystem := String → Option (List Nat)

/-- `open(file_path, 'rb')` followed by the `f.read(4096)` loop: raises
`IOError` for an unreadable file, otherwise yields the 4096-byte chunks. -/
def readFileChunks (fs : FileSystem) (path : String) :
    Except PyExn (List (List Nat)) :=
  match fs path with
  | none => Except.error (PyExn.ioError path)
  | some content => Except.ok (chunksOfSucc 4095 content)

/-- `PDFScanner.generate_file_hash`: each chunk is fed to the incremental
hash (modelled as accumulation of the bytes fed so far), and the hex digest
is returned; the `except Exception` clause swallows any read error and
returns the empty string instead. -/
def generate_file_hash (fs : FileSystem) (path : String) : String :=
  match readFileChunks fs path with
  | Except.error _ => ""
  | Except.ok chunks => sha256_hexdigest (chunks.foldl (fun acc c => acc ++ c) [])

/-! ### The `indexing_status` singleton -/

/-- The one row of the `indexing_status` table. -/
structure IndexingStatus where
  is_running : Bool := false
  current_file : String := ""
  processed : Nat := 0
  total : Nat := 0
  skipped : Nat := 0
  errors : Nat := 0
  last_directory : String := ""
  stop_requested : Bool := false
deriving DecidableEq

/-- The default row inserted by `_create_table`. -/
def defaultStatusRow : IndexingStatus := {}

/-- `DatabaseManager._create_table` on `indexing_status`:
`INSERT OR IGNORE` creates the default row only when none exists and leaves
a persisted row untouched. -/
def create_table (persisted : Option IndexingStatus) : Option IndexingStatus :=
  match persisted with
  | none => some defaultStatusRow
  | some row => some row

/-- `DatabaseManager.get_indexing_status` with its all-default fallback. -/
def get_indexing_status (row : Option IndexingStatus) : IndexingStatus :=
  row.getD defaultStatusRow

/-- The first status read served after a process (re)start over a persisted
store: `webapp.py` constructs `db = DatabaseManager()` at import time (which
runs `_create_table`), and `/api/index/status` returns
`get_indexing_status()`. -/
def startup_first_status (persisted : Option IndexingStatus) : IndexingStatus :=
  get_indexing_status (create_table persisted)

/-! ### The indexing orchestrator, `webapp.run_indexing` -/

/-- A fully-populated extraction result (`ollama_vision_analysis` fills any
missing required field with its zero value before returning). -/
structure ExtractedMeta where
  subject : String
  summary : String
  date : String
  sender : String
  recipient : String
  document_type : String
  tags : List String
deriving DecidableEq

/-- `PDFScanner.process_pdf`: the result dict starts with empty fields and
`error = None`; a hash failure or a vision failure sets `error` and leaves
the fields empty, a vision success copies the extracted fields.  `hash` is
the `generate_file_hash` outcome for the file, `vision` is `none` when
`ollama_vision_analysis` returned `{}`. -/
def process_pdf (path : String) (hash : String)
    (vision : Option ExtractedMeta) : MetadataDict :=
  if hash = "" then
    { file_hash := "", filename := some path, subject := some "",
      summary := some "", date := some "", sender := some "",
      recipient := some "", document_type := some "", tags := [],
      error := some "Failed to generate file hash" }
  else
    match vision with
    | none =>
      { file_hash := hash, filename := some path, subject := some "",
        summary := some "", date := some "", sender := some "",
        recipient := some "", document_type := some "", tags := [],
        error := some "Vision analysis failed - document not indexed" }
    | some m =>
      { file_hash := hash, filename := some path, subject := some m.subject,
        summary := some m.summary, date := some m.date, sender := some m.sender,
        recipient := some m.recipient, document_type := some m.document_type,
        tags := m.tags, error := none }

/-- Per-file environment effects during a run: the hash computed by
`generate_file_hash` (empty string on read failure), the vision-analysis
outcome, and whether the SQLite write inside `store_metadata` succeeds. -/
structure FileEnv where
  path : String
  hash : String
  vision : Option ExtractedMeta
  storeOk : Bool
deriving DecidableEq

/-- The mutable state visible to the web app: the `pdf_metadata` table and
the status row. -/
structure AppState where
  db : MetaDB
  status : IndexingStatus
deriving DecidableEq

/-- The body of one iteration of `run_indexing`'s file loop, after the stop
check: update `current_file`, handle hash failure, the skip of an existing
record, the forced delete, processing, storing, and the counter updates.
All counter writes use the status read at the top of the iteration
(`current_status`), as the source does. -/
def runStep (force : Bool) (now : String) (s : AppState) (f : FileEnv) : AppState :=
  let cs := s.status
  let s1 : AppState := { s with status := { cs with current_file := basename f.path } }
  if f.hash = "" then
    { s1 with status := { s1.status with
        errors := cs.errors + 1,
        processed := cs.processed + 1 } }
  else if (get_metadata s1.db f.hash).isSome && !force then
    { s1 with status := { s1.status with
        skipped := cs.skipped + 1,
        processed := cs.processed + 1 } }
  else
    let s2 : AppState :=
      if (get_metadata s1.db f.hash).isSome && force then
        { s1 with db := dbDelete s1.db f.hash }
      else s1
    let result := process_pdf f.path f.hash f.vision
    let s3 : AppState :=
      if f.storeOk then
        { s2 with db := store_metadata s2.db now result,
                  status := if result.error.isSome then
                      { s2.status with errors := cs.errors + 1 }
                    else s2.status }
      else
        { s2 with status := { s2.status with errors := cs.errors + 1 } }
    { s3 with status := { s3.status with processed := cs.processed + 1 } }

/-- The file loop of `run_indexing`.  `i` numbers the file boundaries from
0; `stopSig i` is the externally-set value of the persisted `stop_requested`
flag as read at the boundary check before file `i` (the `/api/index/stop`
route sets it).  When the flag reads true, the loop clears `is_running`,
`current_file` and `stop_requested` and returns without touching further
files. -/
def runFiles (force : Bool) (stopSig : Nat → Bool) (now : String) :
    Nat → AppState → List FileEnv → AppState
  | _, s, [] => s
  | i, s, f :: rest =>
    if s.status.stop_requested || stopSig i then
      { s with status := { s.status with
          is_running := false,
          current_file := "",
          stop_requested := false } }
    else
      runFiles force stopSig now (i + 1) (runStep force now s f) rest

/-- `webapp.run_indexing(directory, force)`: the connectivity pre-check
(its failure writes `is_running=False, errors=1` and returns), the `total`
update, the file loop, and the `finally` block clearing `is_running` and
`current_file` on every exit path. -/
def run_indexing (force : Bool) (stopSig : Nat → Bool) (now : String)
    (connOk : Bool) (files : List FileEnv) (s : AppState) : AppState :=
  if !connOk then
    { db := s.db,
      status := { s.status with
        is_running := false,
        errors := 1,
        current_file := "" } }
  else
    let s1 : AppState := { s with status := { s.status with total := files.length } }
    let s2 := runFiles force stopSig now 0 s1 files
    { s2 with status := { s2.status with is_running := false, current_file := "" } }

/-- The status written by the `/api/index` route when it accepts a start
request for `path`, before spawning the background thread. -/
def start_indexing_status (path : String) : IndexingStatus :=
  { is_running := true, current_file := "", processed := 0, total := 0,
    skipped := 0, errors := 0, last_directory := path, stop_requested := false }

/-- One accepted indexing run from the start request onward. -/
def full_run (path : String) (force : Bool) (stopSig : Nat → Bool)
    (now : String) (connOk : Bool) (files : List FileEnv) (db : MetaDB) : AppState :=
  run_indexing force stopSig now connOk files
    { db := db, status := start_indexing_status path }

/-! ### Spec-side accounting of a run -/

/-- Spec-side classification of one enumerated file: exactly one of
skipped, succeeded, errored. -/
inductive FileClass where
  | skipped
  | succeeded
  | errored
deriving DecidableEq

/-- How one file is classified against the store state at its turn. -/
def classifyFile (force : Bool) (db : MetaDB) (f : FileEnv) : FileClass :=
  if f.hash = "" then FileClass.errored
  else if (get_metadata db f.hash).isSome && !force then FileClass.skipped
  else if f.storeOk && (process_pdf f.path f.hash f.vision).error.isNone then
    FileClass.succeeded
  else FileClass.errored

/-- The store evolution of one file step, without the status. -/
def stepDb (force : Bool) (now : String) (db : MetaDB) (f : FileEnv) : MetaDB :=
  if f.hash = "" then db
  else if (get_metadata db f.hash).isSome && !force then db
  else
    let db2 := if (get_metadata db f.hash).isSome && force then dbDelete db f.hash
      else db
    if f.storeOk then store_metadata db2 now (process_pdf f.path f.hash f.vision)
    else db2

/-- Spec-side tallies (skipped, succeeded, errored) of a full enumeration. -/
def classifyCounts (force : Bool) (now : String) :
    MetaDB → List FileEnv → Nat × Nat × Nat
  | _, [] => (0, 0, 0)
  | db, f :: rest =>
    let tally := classifyCounts force now (stepDb force now db f) rest
    match classifyFile force db f with
    | FileClass.skipped => (tally.1 + 1, tally.2.1, tally.2.2)
    | FileClass.succeeded => (tally.1, tally.2.1 + 1, tally.2.2)
    | FileClass.errored => (tally.1, tally.2.1, tally.2.2 + 1)

/-! ### The single-document reindex path -/

/-- `webapp.reindex_document(file_hash)` together with its background worker
`reindex_single`: look up the record, bail out if it is missing or the file
is gone from disk, otherwise delete the row and re-process and store in the
background.  `fileOnDisk` models `os.path.exists`, `connOk` the connection
test of the worker, and `hash`, `vision`, `storeOk` the environment
outcomes of the re-processing. -/
def reindex_document (s : AppState) (file_hash : String)
    (fileOnDisk : String → Bool) (connOk : Bool) (hash : String)
    (vision : Option ExtractedMeta) (storeOk : Bool) (now : String) : AppState :=
  match get_metadata s.db file_hash with
  | none => s
  | some meta =>
    match meta.filename with
    | none => s
    | some filename =>
      if filename = "" || !fileOnDisk filename then s
      else
        let s1 : AppState := { s with db := dbDelete s.db file_hash }
        if connOk then
          if storeOk then
            { s1 with
              db := store_metadata s1.db now (process_pdf filename hash vision) }
          else s1
        else s1

/-! ### Concrete example values used in witnesses and counterexamples -/

/-- A fuzzy matcher returning no close matches (one admissible behaviour of
`difflib.get_close_matches`). -/
def noFuzzy : List Char → List (List Char) → List (List Char) := fun _ _ => []

/-- A sample successful extraction. -/
def exMeta : ExtractedMeta :=
  { subject := "Quarterly report", summary := "Numbers for Q1",
    date := "2024-03-31", sender := "ACME", recipient := "Jane",
    document_type := "report", tags := ["q1", "acme"] }

/-- A file that hashes and extracts fine. -/
def exFileOk : FileEnv :=
  { path := "/docs/ok.pdf", hash := "aa11", vision := some exMeta, storeOk := true }

/-- A second file with the same content hash (a duplicate). -/
def exFileDup : FileEnv :=
  { path := "/docs/dup.pdf", hash := "aa11", vision := some exMeta, storeOk := true }

/-- An unreadable file: `generate_file_hash` returned `""`. -/
def exFileNoHash : FileEnv :=
  { path := "/docs/bad.pdf", hash := "", vision := none, storeOk := true }

/-- A readable file whose vision analysis failed. -/
def exFileNoVision : FileEnv :=
  { path := "/docs/scan.pdf", hash := "bb22", vision := none, storeOk := true }

/-- A record matching the query `invoice`, older timestamp. -/
def exDocOld : SearchDoc :=
  { file_hash := "d1", filename := "inv1.pdf", subject := "invoice",
    summary := "", date := "", sender := "", recipient := "",
    document_type := "", tags := [], error := none,
    last_updated := "2024-01-01 10:00:00" }

/-- The same searchable content, newer timestamp. -/
def exDocNew : SearchDoc :=
  { exDocOld with file_hash := "d2", last_updated := "2024-06-01 10:00:00" }

/-! ### Proofs -/

/-! ### Facts about the string primitives -/

theorem listStartsWith_iff (p l : List Char) :
    listStartsWith p l = true ↔ ∃ t, p ++ t = l := by
  induction p generalizing l with
  | nil => simp [listStartsWith]
  | cons a ps ih =>
    cases l with
    | nil => simp [listStartsWith]
    | cons c cs =>
      simp only [listStartsWith, Bool.and_eq_true, decide_eq_true_eq, ih]
      constructor
      · rintro ⟨rfl, t, rfl⟩
        exact ⟨t, rfl⟩
      · rintro ⟨t, h⟩
        cases h
        exact ⟨rfl, t, rfl⟩

theorem isSubstr_iff (p l : List Char) : isSubstr p l = true ↔ p <:+: l := by
  induction l with
  | nil =>
    simp only [isSubstr, listStartsWith_iff]
    constructor
    · rintro ⟨t, h⟩
      exact ⟨[], t, by simpa using h⟩
    · rintro ⟨s, t, h⟩
      simp only [List.append_assoc, List.append_eq_nil] at h
      exact ⟨t, by simp [h.2.1, h.2.2]⟩
  | cons c cs ih =>
    simp only [isSubstr, Bool.or_eq_true, listStartsWith_iff, ih]
    constructor
    · rintro (⟨t, h⟩ | hinf)
      · exact ⟨[], t, by simpa using h⟩
      · exact hinf.trans (List.IsSuffix.isInfix (List.suffix_cons c cs))
    · rintro ⟨s, t, h⟩
      cases s with
      | nil => exact Or.inl ⟨t, by simpa using h⟩
      | cons x xs =>
        right
        simp only [List.cons_append, List.cons.injEq] at h
        exact ⟨xs, t, h.2⟩

theorem splitWSGo_mem_within {t : List Char} :
    ∀ (cur l : List Char), t ∈ splitWSGo cur l → t <:+: (cur.reverse ++ l)
  | cur, [], h => by
    by_cases hc : cur = ([] : List Char)
    · simp [splitWSGo, hc] at h
    · simp only [splitWSGo, if_neg hc, List.mem_singleton] at h
      subst h
      exact ⟨[], [], by simp⟩
  | cur, c :: cs, h => by
    by_cases hw : isWS c
    · by_cases hc : cur = ([] : List Char)
      · subst hc
        simp only [splitWSGo, hw, if_true, if_pos rfl] at h
        have := splitWSGo_mem_within [] cs h
        simp only [List.reverse_nil, List.nil_append] at this ⊢
        exact this.trans (List.IsSuffix.isInfix (List.suffix_cons c cs))
      · simp only [splitWSGo, hw, if_true, if_neg hc, List.mem_cons] at h
        rcases h with rfl | h
        · exact ⟨[], c :: cs, by simp⟩
        · have := splitWSGo_mem_within [] cs h
          simp only [List.reverse_nil, List.nil_append] at this
          exact (this.trans (List.IsSuffix.isInfix (List.suffix_cons c cs))).trans
            (List.IsSuffix.isInfix (List.suffix_append cur.reverse (c :: cs)))
    · simp only [splitWSGo, hw, Bool.false_eq_true, if_false] at h
      have := splitWSGo_mem_within (c :: cur) cs h
      simpa [List.append_assoc] using this

theorem splitWS_mem_within {t l : List Char} (h : t ∈ splitWS l) : t <:+: l := by
  have := splitWSGo_mem_within [] l h
  simpa using this

theorem splitWSGo_mem_ne_nil {t : List Char} :
    ∀ (cur l : List Char), t ∈ splitWSGo cur l → t ≠ []
  | cur, [], h => by
    by_cases hc : cur = ([] : List Char)
    · simp [splitWSGo, hc] at h
    · simp only [splitWSGo, if_neg hc, List.mem_singleton] at h
      subst h
      intro hrev
      exact hc (by simpa using hrev)
  | cur, c :: cs, h => by
    by_cases hw : isWS c
    · by_cases hc : cur = ([] : List Char)
      · subst hc
        simp only [splitWSGo, hw, if_true, if_pos rfl] at h
        exact splitWSGo_mem_ne_nil [] cs h
      · simp only [splitWSGo, hw, if_true, if_neg hc, List.mem_cons] at h
        rcases h with rfl | h
        · intro hrev
          exact hc (by simpa using hrev)
        · exact splitWSGo_mem_ne_nil [] cs h
    · simp only [splitWSGo, hw, Bool.false_eq_true, if_false] at h
      exact splitWSGo_mem_ne_nil (c :: cur) cs h

theorem splitWS_mem_ne_nil {t l : List Char} (h : t ∈ splitWS l) : t ≠ [] :=
  splitWSGo_mem_ne_nil [] l h


/-! ### Decomposition lemmas for the scorer -/

theorem pySetInsert_mem (s : List (List Char)) (x y : List Char) :
    x ∈ pySetInsert s y ↔ x = y ∨ x ∈ s := by
  unfold pySetInsert
  by_cases h : y ∈ s
  · simp only [if_pos h]
    constructor
    · exact Or.inr
    · rintro (rfl | hx)
      · exact h
      · exact hx
  · simp [if_neg h]

theorem markAll_mem (terms : List (List Char)) :
    ∀ (s0 : List (List Char)) (x : List Char),
      x ∈ terms.foldl (fun s t => pySetInsert s (lowerStr t)) s0 ↔
        x ∈ s0 ∨ ∃ t ∈ terms, lowerStr t = x := by
  induction terms with
  | nil => intro s0 x; simp
  | cons a ts ih =>
    intro s0 x
    simp only [List.foldl_cons, ih, pySetInsert_mem, List.mem_cons]
    constructor
    · rintro ((rfl | hx) | ⟨t, ht, rfl⟩)
      · exact Or.inr ⟨a, Or.inl rfl, rfl⟩
      · exact Or.inl hx
      · exact Or.inr ⟨t, Or.inr ht, rfl⟩
    · rintro (hx | ⟨t, (rfl | ht), rfl⟩)
      · exact Or.inl (Or.inr hx)
      · exact Or.inl (Or.inl rfl)
      · exact Or.inr ⟨t, ht, rfl⟩

theorem tier3_foldl (text : List Char) (terms : List (List Char)) :
    ∀ (st : ScoreState),
      (terms.foldl (tier3Step text) st).score = st.score + specTier3 terms text ∧
      (terms.foldl (tier3Step text) st).fuzzy = st.fuzzy ∧
      ∀ x, x ∈ (terms.foldl (tier3Step text) st).exact ↔
        x ∈ st.exact ∨ ∃ t ∈ terms, lowerStr t = x ∧ isSubstr (lowerStr t) text = true := by
  induction terms with
  | nil => intro st; simp [specTier3]
  | cons a ts ih =>
    intro st
    simp only [List.foldl_cons]
    obtain ⟨ihs, ihf, ihm⟩ := ih (tier3Step text st a)
    have hstep_score : (tier3Step text st a).score = st.score + specTier3Term text a := by
      unfold tier3Step specTier3Term
      by_cases h : isSubstr (lowerStr a) text = true
      · simp only [h, if_pos, if_true]
        by_cases hc : 1 < countOcc (lowerStr a) text
        · simp only [if_pos hc]; ring
        · have : countOcc (lowerStr a) text - 1 = 0 := by omega
          simp only [if_neg hc, this]; ring
      · simp [h]
    have hstep_fuzzy : (tier3Step text st a).fuzzy = st.fuzzy := by
      unfold tier3Step
      by_cases h : isSubstr (lowerStr a) text = true <;> simp [h]
    have hstep_exact : ∀ x, x ∈ (tier3Step text st a).exact ↔
        x ∈ st.exact ∨ (lowerStr a = x ∧ isSubstr (lowerStr a) text = true) := by
      intro x
      unfold tier3Step
      by_cases h : isSubstr (lowerStr a) text = true
      · simp only [h, if_true, pySetInsert_mem]
        constructor
        · rintro (rfl | hx)
          · exact Or.inr ⟨rfl, by simp⟩
          · exact Or.inl hx
        · rintro (hx | ⟨rfl, _⟩)
          · exact Or.inr hx
          · exact Or.inl rfl
      · simp [h]
    refine ⟨?_, by rw [ihf, hstep_fuzzy], ?_⟩
    · rw [ihs, hstep_score]
      simp only [specTier3, List.map_cons, List.sum_cons]
      ring
    · intro x
      rw [ihm x, hstep_exact x]
      simp only [List.mem_cons]
      constructor
      · rintro ((hx | ⟨rfl, hsub⟩) | ⟨t, ht, rfl, hsub⟩)
        · exact Or.inl hx
        · exact Or.inr ⟨a, Or.inl rfl, rfl, hsub⟩
        · exact Or.inr ⟨t, Or.inr ht, rfl, hsub⟩
      · rintro (hx | ⟨t, (rfl | ht), rfl, hsub⟩)
        · exact Or.inl (Or.inl hx)
        · exact Or.inl (Or.inr ⟨rfl, hsub⟩)
        · exact Or.inr ⟨t, ht, rfl, hsub⟩

theorem tier4_foldl (cm : List Char → List (List Char) → List (List Char))
    (words : List (List Char)) (terms : List (List Char)) :
    ∀ (st : ScoreState),
      (terms.foldl (tier4Step cm words) st).exact = st.exact ∧
      (terms.foldl (tier4Step cm words) st).score = st.score +
        (terms.map (fun t =>
          if lowerStr t ∈ st.exact then 0 else 5 * (cm (lowerStr t) words).length)).sum ∧
      ((terms.foldl (tier4Step cm words) st).fuzzy ≠ [] ↔ st.fuzzy ≠ [] ∨
        ∃ t ∈ terms, lowerStr t ∉ st.exact ∧ cm (lowerStr t) words ≠ []) := by
  induction terms with
  | nil => intro st; simp
  | cons a ts ih =>
    intro st
    simp only [List.foldl_cons]
    obtain ⟨ihe, ihs, ihf⟩ := ih (tier4Step cm words st a)
    have hstep_exact : (tier4Step cm words st a).exact = st.exact := by
      unfold tier4Step
      by_cases h : lowerStr a ∈ st.exact
      · simp [h]
      · by_cases h2 : cm (lowerStr a) words = [] <;> simp [h, h2]
    have hstep_score : (tier4Step cm words st a).score = st.score +
        (if lowerStr a ∈ st.exact then 0 else 5 * (cm (lowerStr a) words).length) := by
      unfold tier4Step
      by_cases h : lowerStr a ∈ st.exact
      · simp [h]
      · by_cases h2 : cm (lowerStr a) words = [] <;> simp [h, h2]
    have hstep_fuzzy : ((tier4Step cm words st a).fuzzy ≠ [] ↔
        st.fuzzy ≠ [] ∨ (lowerStr a ∉ st.exact ∧ cm (lowerStr a) words ≠ [])) := by
      unfold tier4Step
      by_cases h : lowerStr a ∈ st.exact
      · simp [h]
      · by_cases h2 : cm (lowerStr a) words = []
        · simp [h, h2]
        · simp only [if_neg h, if_pos (by simpa using h2)]
          constructor
          · intro _; exact Or.inr ⟨h, h2⟩
          · intro _
            unfold pySetInsert
            by_cases hf : lowerStr a ∈ st.fuzzy
            · simp only [if_pos hf]
              exact List.ne_nil_of_mem hf
            · simp [if_neg hf]
    refine ⟨by rw [ihe, hstep_exact], ?_, ?_⟩
    · rw [ihs, hstep_score, hstep_exact]
      simp only [List.map_cons, List.sum_cons]
      ring
    · rw [ihf, hstep_fuzzy, hstep_exact]
      simp only [List.mem_cons]
      constructor
      · rintro ((hf | ⟨hne, hcm⟩) | ⟨t, ht, hne, hcm⟩)
        · exact Or.inl hf
        · exact Or.inr ⟨a, Or.inl rfl, hne, hcm⟩
        · exact Or.inr ⟨t, Or.inr ht, hne, hcm⟩
      · rintro (hf | ⟨t, (rfl | ht), hne, hcm⟩)
        · exact Or.inl (Or.inl hf)
        · exact Or.inl (Or.inr ⟨hne, hcm⟩)
        · exact Or.inr ⟨t, ht, hne, hcm⟩

theorem isSubstr_nil_of_ne {p : List Char} (h : p ≠ []) : isSubstr p [] = false := by
  cases p with
  | nil => exact absurd rfl h
  | cons c cs => rfl

theorem lowerStr_ne_nil {t : List Char} (h : t ≠ []) : lowerStr t ≠ [] := by
  cases t with
  | nil => exact absurd rfl h
  | cons c cs => simp [lowerStr]

/-- A whitespace token of the query is, after lowering, a substring of the
lowered query; hence it occurs in any text containing the lowered query. -/
theorem token_lower_substr {q text t : List Char} (ht : t ∈ splitWS q)
    (hq : isSubstr (lowerStr q) text = true) : isSubstr (lowerStr t) text = true := by
  rw [isSubstr_iff] at hq ⊢
  exact ((splitWS_mem_within ht).map lowerChar).trans hq

theorem markAllTerms_mem (terms : List (List Char)) (s0 : List (List Char))
    (x : List Char) :
    x ∈ markAllTerms terms s0 ↔ x ∈ s0 ∨ ∃ t ∈ terms, lowerStr t = x :=
  markAll_mem terms s0 x

theorem tier2State_fuzzy (ql : List Char) (terms : List (List Char)) (text : List Char) :
    (tier2State ql terms text).fuzzy = [] := by
  unfold tier2State tier1State
  by_cases h1 : isSubstr ql text = true <;>
    by_cases h2 : ((terms.all fun t => isSubstr (lowerStr t) text) &&
      decide (1 < terms.length)) = true <;>
    simp [h1, h2]

theorem tier2_cond_iff (terms : List (List Char)) (text : List Char) :
    ((terms.all fun t => isSubstr (lowerStr t) text) && decide (1 < terms.length)) = true ↔
      2 ≤ terms.length ∧ ∀ t ∈ terms, isSubstr (lowerStr t) text = true := by
  simp only [Bool.and_eq_true, List.all_eq_true, decide_eq_true_eq]
  constructor
  · rintro ⟨hall, hlen⟩
    exact ⟨hlen, hall⟩
  · rintro ⟨hlen, hall⟩
    exact ⟨hall, hlen⟩

theorem tier2State_score (ql : List Char) (terms : List (List Char)) (text : List Char) :
    (tier2State ql terms text).score = specTier1 ql text + specTier2 terms text := by
  unfold tier2State tier1State specTier1 specTier2
  by_cases h1 : isSubstr ql text = true <;>
    by_cases h2 : ((terms.all fun t => isSubstr (lowerStr t) text) &&
      decide (1 < terms.length)) = true
  · rw [if_pos h2, if_pos h1]
    rw [if_pos ((tier2_cond_iff terms text).mp h2), if_pos h1]
  · rw [if_neg h2, if_pos h1]
    rw [if_neg (fun hc => h2 ((tier2_cond_iff terms text).mpr hc)), if_pos h1]
  · rw [if_pos h2, if_neg h1]
    rw [if_pos ((tier2_cond_iff terms text).mp h2), if_neg h1]
  · rw [if_neg h2, if_neg h1]
    rw [if_neg (fun hc => h2 ((tier2_cond_iff terms text).mpr hc)), if_neg h1]

theorem tier2State_mem (ql : List Char) (terms : List (List Char)) (text : List Char)
    (x : List Char) :
    x ∈ (tier2State ql terms text).exact ↔
      (isSubstr ql text = true ∨
        ((terms.all fun t => isSubstr (lowerStr t) text) &&
          decide (1 < terms.length)) = true) ∧ ∃ t ∈ terms, lowerStr t = x := by
  unfold tier2State tier1State
  by_cases h1 : isSubstr ql text = true <;>
    by_cases h2 : ((terms.all fun t => isSubstr (lowerStr t) text) &&
      decide (1 < terms.length)) = true
  · simp [h1, h2, markAllTerms_mem]
  · simp [h1, h2, markAllTerms_mem]
  · simp [h1, h2, markAllTerms_mem]
  · simp [h1, h2]

/-- Membership in `exact_matched_terms` after the first three tiers, for a
query whose terms come from `str.split`: a lowered term is marked exactly
when it occurs in the text. -/
theorem exact3_mem (query text : List Char) (x : List Char) :
    x ∈ ((splitWS query).foldl (tier3Step text)
        (tier2State (lowerStr query) (splitWS query) text)).exact ↔
      ∃ t ∈ splitWS query, lowerStr t = x ∧ isSubstr (lowerStr t) text = true := by
  obtain ⟨-, -, hmem⟩ := tier3_foldl text (splitWS query)
    (tier2State (lowerStr query) (splitWS query) text)
  rw [hmem x, tier2State_mem]
  constructor
  · rintro (⟨hfire, t, ht, rfl⟩ | h)
    · rcases hfire with h1 | h2
      · exact ⟨t, ht, rfl, token_lower_substr ht h1⟩
      · rcases (tier2_cond_iff _ _).mp h2 with ⟨-, hall⟩
        exact ⟨t, ht, rfl, hall t ht⟩
    · exact h
  · rintro ⟨t, ht, rfl, hsub⟩
    exact Or.inr ⟨t, ht, rfl, hsub⟩

theorem exact3_mem_term {query text t : List Char} (ht : t ∈ splitWS query) :
    lowerStr t ∈ ((splitWS query).foldl (tier3Step text)
        (tier2State (lowerStr query) (splitWS query) text)).exact ↔
      isSubstr (lowerStr t) text = true := by
  rw [exact3_mem]
  constructor
  · rintro ⟨t', _, heq, hsub⟩
    rwa [heq] at hsub
  · intro hsub
    exact ⟨t, ht, rfl, hsub⟩

theorem splitWS_nil : splitWS ([] : List Char) = [] := rfl

/-- The score of the four-tier accumulation equals the sum of the four
spec-side tiers (for terms obtained by whitespace-splitting the query). -/
theorem tier4State_score_eq (cm : List Char → List (List Char) → List (List Char))
    (query text : List Char) :
    (tier4State cm (lowerStr query) (splitWS query) text).score =
      specTier1 (lowerStr query) text + specTier2 (splitWS query) text +
        specTier3 (splitWS query) text + specTier4 cm (splitWS query) text := by
  obtain ⟨h3s, -, -⟩ := tier3_foldl text (splitWS query)
    (tier2State (lowerStr query) (splitWS query) text)
  obtain ⟨-, h4s, -⟩ := tier4_foldl cm (splitWS text) (splitWS query)
    ((splitWS query).foldl (tier3Step text)
      (tier2State (lowerStr query) (splitWS query) text))
  unfold tier4State
  rw [h4s, h3s, tier2State_score]
  have hcong : ((splitWS query).map (fun t =>
      if lowerStr t ∈ ((splitWS query).foldl (tier3Step text)
          (tier2State (lowerStr query) (splitWS query) text)).exact
      then 0 else 5 * (cm (lowerStr t) (splitWS text)).length)).sum =
      specTier4 cm (splitWS query) text := by
    unfold specTier4
    congr 1
    apply List.map_congr_left
    intro t ht
    unfold specTier4Term
    by_cases hsub : isSubstr (lowerStr t) text = true
    · rw [if_pos ((exact3_mem_term ht).mpr hsub), if_pos hsub]
    · rw [if_neg (fun hmem => hsub ((exact3_mem_term ht).mp hmem)),
        if_neg (fun h => hsub h)]
  rw [hcong]

/-- With no exact-substring term and no fuzzy candidate for any term, the
`has_any_match` flag of the source is false. -/
theorem tier4State_no_match (cm : List Char → List (List Char) → List (List Char))
    (query text : List Char)
    (hnosub : ∀ t ∈ splitWS query, isSubstr (lowerStr t) text = false)
    (hnofuzzy : ∀ t ∈ splitWS query, cm (lowerStr t) (splitWS text) = []) :
    (tier4State cm (lowerStr query) (splitWS query) text).exact = [] ∧
      (tier4State cm (lowerStr query) (splitWS query) text).fuzzy = [] := by
  obtain ⟨-, h3f, -⟩ := tier3_foldl text (splitWS query)
    (tier2State (lowerStr query) (splitWS query) text)
  obtain ⟨h4e, -, h4f⟩ := tier4_foldl cm (splitWS text) (splitWS query)
    ((splitWS query).foldl (tier3Step text)
      (tier2State (lowerStr query) (splitWS query) text))
  constructor
  · rw [tier4State, h4e]
    rw [List.eq_nil_iff_forall_not_mem]
    intro x hx
    obtain ⟨t, ht, rfl, hsub⟩ := (exact3_mem query text x).mp hx
    rw [hnosub t ht] at hsub
    exact Bool.false_ne_true hsub
  · rw [tier4State]
    by_contra hf
    rcases h4f.mp hf with hf3 | ⟨t, ht, -, hcm⟩
    · rw [h3f, tier2State_fuzzy] at hf3
      exact hf3 rfl
    · exact hcm (hnofuzzy t ht)

/-- Main decomposition: for a non-empty term list obtained from the query by
whitespace splitting, and a fuzzy matcher returning nothing on an empty word
list, `_calculate_relevance_score` computes exactly the sum of the four
spec-side tiers. -/
theorem calc_score_decomp (cm : List Char → List (List Char) → List (List Char))
    (query text : List Char) (hne : splitWS query ≠ [])
    (hcm : ∀ t, cm t [] = []) :
    calculate_relevance_score cm (lowerStr query) (splitWS query) text =
      specTier1 (lowerStr query) text + specTier2 (splitWS query) text +
        specTier3 (splitWS query) text + specTier4 cm (splitWS query) text := by
  obtain ⟨t0, ht0⟩ := List.exists_mem_of_ne_nil _ hne
  have ht0ne : t0 ≠ [] := splitWS_mem_ne_nil ht0
  by_cases htext : text = []
  · subst htext
    have hqne : query ≠ [] := by
      intro h
      subst h
      rw [splitWS_nil] at ht0
      exact absurd ht0 (List.not_mem_nil t0)
    have h1 : specTier1 (lowerStr query) [] = 0 := by
      unfold specTier1
      rw [isSubstr_nil_of_ne (lowerStr_ne_nil hqne)]
      simp
    have h2 : specTier2 (splitWS query) [] = 0 := by
      unfold specTier2
      rw [if_neg]
      rintro ⟨-, hall⟩
      have hx := hall t0 ht0
      rw [isSubstr_nil_of_ne (lowerStr_ne_nil ht0ne)] at hx
      exact Bool.false_ne_true hx
    have h3 : specTier3 (splitWS query) [] = 0 := by
      unfold specTier3
      apply List.sum_eq_zero
      intro x hx
      obtain ⟨t, ht, rfl⟩ := List.mem_map.mp hx
      unfold specTier3Term
      rw [isSubstr_nil_of_ne (lowerStr_ne_nil (splitWS_mem_ne_nil ht))]
      simp
    have h4 : specTier4 cm (splitWS query) [] = 0 := by
      unfold specTier4
      apply List.sum_eq_zero
      intro x hx
      obtain ⟨t, ht, rfl⟩ := List.mem_map.mp hx
      unfold specTier4Term
      rw [isSubstr_nil_of_ne (lowerStr_ne_nil (splitWS_mem_ne_nil ht))]
      rw [splitWS_nil, hcm (lowerStr t)]
      simp
    rw [h1, h2, h3, h4]
    unfold calculate_relevance_score
    simp
  · unfold calculate_relevance_score
    rw [if_neg htext]
    by_cases hm : (tier4State cm (lowerStr query) (splitWS query) text).exact ≠ [] ∨
        (tier4State cm (lowerStr query) (splitWS query) text).fuzzy ≠ []
    · rw [if_pos hm]
      exact tier4State_score_eq cm query text
    · rw [if_neg hm]
      push_neg at hm
      obtain ⟨he, hf⟩ := hm
      obtain ⟨-, h3f, -⟩ := tier3_foldl text (splitWS query)
        (tier2State (lowerStr query) (splitWS query) text)
      obtain ⟨h4e, -, h4f⟩ := tier4_foldl cm (splitWS text) (splitWS query)
        ((splitWS query).foldl (tier3Step text)
          (tier2State (lowerStr query) (splitWS query) text))
      have hnosub : ∀ t ∈ splitWS query, isSubstr (lowerStr t) text = false := by
        intro t ht
        cases hb : isSubstr (lowerStr t) text with
        | false => rfl
        | true =>
          exfalso
          have hmem : lowerStr t ∈
              (tier4State cm (lowerStr query) (splitWS query) text).exact := by
            rw [tier4State, h4e]
            exact (exact3_mem_term ht).mpr hb
          rw [he] at hmem
          exact List.not_mem_nil _ hmem
      have hnofuzzy : ∀ t ∈ splitWS query, cm (lowerStr t) (splitWS text) = [] := by
        intro t ht
        by_contra hx
        have hne4 : (tier4State cm (lowerStr query) (splitWS query) text).fuzzy ≠ [] := by
          rw [tier4State]
          apply h4f.mpr
          refine Or.inr ⟨t, ht, ?_, hx⟩
          intro hmem
          have hsub := (exact3_mem_term ht).mp hmem
          rw [hnosub t ht] at hsub
          exact Bool.false_ne_true hsub
        exact hne4 hf
      have h1 : specTier1 (lowerStr query) text = 0 := by
        unfold specTier1
        cases hb : isSubstr (lowerStr query) text with
        | false => simp
        | true =>
          exfalso
          have := token_lower_substr ht0 hb
          rw [hnosub t0 ht0] at this
          exact Bool.false_ne_true this
      have h2 : specTier2 (splitWS query) text = 0 := by
        unfold specTier2
        rw [if_neg]
        rintro ⟨-, hall⟩
        have hx := hall t0 ht0
        rw [hnosub t0 ht0] at hx
        exact Bool.false_ne_true hx
      have h3 : specTier3 (splitWS query) text = 0 := by
        unfold specTier3
        apply List.sum_eq_zero
        intro x hx
        obtain ⟨t, ht, rfl⟩ := List.mem_map.mp hx
        unfold specTier3Term
        rw [hnosub t ht]
        simp
      have h4 : specTier4 cm (splitWS query) text = 0 := by
        unfold specTier4
        apply List.sum_eq_zero
        intro x hx
        obtain ⟨t, ht, rfl⟩ := List.mem_map.mp hx
        unfold specTier4Term
        rw [hnosub t ht, hnofuzzy t ht]
        simp
      rw [h1, h2, h3, h4]


/-! ### Stable sort facts -/

theorem insertStable_mem {α : Type} (le : α → α → Bool) (x y : α) (l : List α) :
    y ∈ insertStable le x l ↔ y = x ∨ y ∈ l := by
  induction l with
  | nil => simp [insertStable]
  | cons a as ih =>
    unfold insertStable
    by_cases h : le x a = true
    · simp only [if_pos h, List.mem_cons]
    · simp only [if_neg h, List.mem_cons, ih]
      tauto

theorem stableSort_mem {α : Type} (le : α → α → Bool) (l : List α) (y : α) :
    y ∈ stableSort le l ↔ y ∈ l := by
  induction l with
  | nil => simp [stableSort]
  | cons a as ih =>
    unfold stableSort
    rw [insertStable_mem, ih, List.mem_cons]

/-! ### Round trip of the JSON codec -/

theorem char_toNat_inj {a b : Char} (h : a.toNat = b.toNat) : a = b := by
  rw [← Char.ofNat_toNat a, ← Char.ofNat_toNat b, h]

theorem char_toNat_lt (c : Char) : c.toNat < 1114112 := by
  rcases c.valid with h | ⟨-, h⟩
  · exact Nat.lt_trans h (by norm_num)
  · exact h

theorem char_not_surrogate (c : Char) : c.toNat < 55296 ∨ 57344 ≤ c.toNat := by
  rcases c.valid with h | ⟨h, -⟩
  · exact Or.inl h
  · exact Or.inr h

theorem fromHex_toHex {n : Nat} (h : n < 16) :
    fromHexDigit (toHexDigit n) = some n := by
  interval_cases n <;> decide

theorem hex4_value {n : Nat} (h : n < 65536) :
    n / 4096 % 16 * 4096 + n / 256 % 16 * 256 + n / 16 % 16 * 16 + n % 16 = n := by
  omega

theorem jsonStringBody_u (f : Nat) (h1 h2 h3 h4 : Char) (d1 d2 d3 d4 : Nat)
    (cs3 : List Char)
    (e1 : fromHexDigit h1 = some d1) (e2 : fromHexDigit h2 = some d2)
    (e3 : fromHexDigit h3 = some d3) (e4 : fromHexDigit h4 = some d4)
    (hns : ¬(55296 ≤ d1 * 4096 + d2 * 256 + d3 * 16 + d4 ∧
      d1 * 4096 + d2 * 256 + d3 * 16 + d4 < 56320))
    (hns2 : ¬(56320 ≤ d1 * 4096 + d2 * 256 + d3 * 16 + d4 ∧
      d1 * 4096 + d2 * 256 + d3 * 16 + d4 < 57344)) :
    jsonStringBody (f + 1) ('\\' :: 'u' :: h1 :: h2 :: h3 :: h4 :: cs3) =
      (jsonStringBody f cs3).map
        (fun r => (Char.ofNat (d1 * 4096 + d2 * 256 + d3 * 16 + d4) :: r.1, r.2)) := by
  simp only [jsonStringBody, e1, e2, e3, e4]
  norm_num
  rw [if_neg hns, if_neg hns2]
  rw [if_neg (by decide : ¬('\\' : Char) = '"'), if_neg (by decide : ¬('u' : Char) = '"'),
    if_neg (by decide : ¬('u' : Char) = '\\'), if_neg (by decide : ¬('u' : Char) = '/'),
    if_neg (by decide : ¬('u' : Char) = 'n'), if_neg (by decide : ¬('u' : Char) = 'r'),
    if_neg (by decide : ¬('u' : Char) = 't'), if_neg (by decide : ¬('u' : Char) = 'b'),
    if_neg (by decide : ¬('u' : Char) = 'f')]

theorem jsonStringBody_u_pair (f : Nat) (h1 h2 h3 h4 k1 k2 k3 k4 : Char)
    (d1 d2 d3 d4 g1 g2 g3 g4 : Nat) (cs4 : List Char)
    (e1 : fromHexDigit h1 = some d1) (e2 : fromHexDigit h2 = some d2)
    (e3 : fromHexDigit h3 = some d3) (e4 : fromHexDigit h4 = some d4)
    (e5 : fromHexDigit k1 = some g1) (e6 : fromHexDigit k2 = some g2)
    (e7 : fromHexDigit k3 = some g3) (e8 : fromHexDigit k4 = some g4)
    (hhi : 55296 ≤ d1 * 4096 + d2 * 256 + d3 * 16 + d4 ∧
      d1 * 4096 + d2 * 256 + d3 * 16 + d4 < 56320)
    (hlo : 56320 ≤ g1 * 4096 + g2 * 256 + g3 * 16 + g4 ∧
      g1 * 4096 + g2 * 256 + g3 * 16 + g4 < 57344) :
    jsonStringBody (f + 1)
      ('\\' :: 'u' :: h1 :: h2 :: h3 :: h4 :: '\\' :: 'u' :: k1 :: k2 :: k3 :: k4 :: cs4) =
      (jsonStringBody f cs4).map (fun r =>
        (Char.ofNat (65536 + (d1 * 4096 + d2 * 256 + d3 * 16 + d4 - 55296) * 1024 +
          (g1 * 4096 + g2 * 256 + g3 * 16 + g4 - 56320)) :: r.1, r.2)) := by
  simp only [jsonStringBody, e1, e2, e3, e4, e5, e6, e7, e8]
  rw [if_neg (by decide : ¬('\\' : Char) = '"'), if_neg (by decide : ¬('u' : Char) = '"'),
    if_neg (by decide : ¬('u' : Char) = '\\'), if_neg (by decide : ¬('u' : Char) = '/'),
    if_neg (by decide : ¬('u' : Char) = 'n'), if_neg (by decide : ¬('u' : Char) = 'r'),
    if_neg (by decide : ¬('u' : Char) = 't'), if_neg (by decide : ¬('u' : Char) = 'b'),
    if_neg (by decide : ¬('u' : Char) = 'f'), if_pos hhi, if_pos hlo]
  simp

theorem jsonStringBody_encChar (c : Char) (tl : List Char) (f : Nat) :
    jsonStringBody (f + 1) (encChar c ++ tl) =
      (jsonStringBody f tl).map (fun r => (c :: r.1, r.2)) := by
  by_cases hq : c = '"'
  · subst hq; rfl
  by_cases hbs : c = '\\'
  · subst hbs; rfl
  by_cases hn : c = '\n'
  · subst hn; rfl
  by_cases hr : c = '\r'
  · subst hr; rfl
  by_cases ht : c = '\t'
  · subst ht; rfl
  by_cases h8 : c.toNat = 8
  · have : c = Char.ofNat 8 := char_toNat_inj (by rw [h8]; decide)
    subst this; rfl
  by_cases h12 : c.toNat = 12
  · have : c = Char.ofNat 12 := char_toNat_inj (by rw [h12]; decide)
    subst this; rfl
  by_cases hlow : c.toNat < 32 ∨ 127 ≤ c.toNat
  · rw [encChar, if_neg hq, if_neg hbs, if_neg hn, if_neg hr, if_neg ht,
      if_neg h8, if_neg h12, if_pos hlow]
    by_cases hbmp : c.toNat < 65536
    · rw [if_pos hbmp]
      have hd1 : fromHexDigit (toHexDigit (c.toNat / 4096 % 16)) = some (c.toNat / 4096 % 16) :=
        fromHex_toHex (Nat.mod_lt _ (by norm_num))
      have hd2 : fromHexDigit (toHexDigit (c.toNat / 256 % 16)) = some (c.toNat / 256 % 16) :=
        fromHex_toHex (Nat.mod_lt _ (by norm_num))
      have hd3 : fromHexDigit (toHexDigit (c.toNat / 16 % 16)) = some (c.toNat / 16 % 16) :=
        fromHex_toHex (Nat.mod_lt _ (by norm_num))
      have hd4 : fromHexDigit (toHexDigit (c.toNat % 16)) = some (c.toNat % 16) :=
        fromHex_toHex (Nat.mod_lt _ (by norm_num))
      have hns : ¬(55296 ≤ c.toNat / 4096 % 16 * 4096 + c.toNat / 256 % 16 * 256 +
          c.toNat / 16 % 16 * 16 + c.toNat % 16 ∧
          c.toNat / 4096 % 16 * 4096 + c.toNat / 256 % 16 * 256 +
          c.toNat / 16 % 16 * 16 + c.toNat % 16 < 56320) := by
        rw [hex4_value hbmp]
        rcases char_not_surrogate c with h | h <;> omega
      have hns2 : ¬(56320 ≤ c.toNat / 4096 % 16 * 4096 + c.toNat / 256 % 16 * 256 +
          c.toNat / 16 % 16 * 16 + c.toNat % 16 ∧
          c.toNat / 4096 % 16 * 4096 + c.toNat / 256 % 16 * 256 +
          c.toNat / 16 % 16 * 16 + c.toNat % 16 < 57344) := by
        rw [hex4_value hbmp]
        rcases char_not_surrogate c with h | h <;> omega
      have := jsonStringBody_u f (toHexDigit (c.toNat / 4096 % 16))
        (toHexDigit (c.toNat / 256 % 16)) (toHexDigit (c.toNat / 16 % 16))
        (toHexDigit (c.toNat % 16)) (c.toNat / 4096 % 16) (c.toNat / 256 % 16)
        (c.toNat / 16 % 16) (c.toNat % 16) tl hd1 hd2 hd3 hd4 hns hns2
      simp only [hex4, List.cons_append, List.nil_append] at this ⊢
      rw [this, hex4_value hbmp, Char.ofNat_toNat]
    · rw [if_neg hbmp]
      have hvlt : c.toNat - 65536 < 1048576 := by
        have := char_toNat_lt c
        omega
      have hhiv : 55296 + (c.toNat - 65536) / 1024 < 65536 := by
        have : (c.toNat - 65536) / 1024 < 1024 := Nat.div_lt_of_lt_mul (by omega)
        omega
      have hlov : 56320 + (c.toNat - 65536) % 1024 < 65536 := by
        have : (c.toNat - 65536) % 1024 < 1024 := Nat.mod_lt _ (by norm_num)
        omega
      have hd : ∀ m : Nat, m < 65536 →
          fromHexDigit (toHexDigit (m / 4096 % 16)) = some (m / 4096 % 16) ∧
          fromHexDigit (toHexDigit (m / 256 % 16)) = some (m / 256 % 16) ∧
          fromHexDigit (toHexDigit (m / 16 % 16)) = some (m / 16 % 16) ∧
          fromHexDigit (toHexDigit (m % 16)) = some (m % 16) := by
        intro m _
        exact ⟨fromHex_toHex (Nat.mod_lt _ (by norm_num)),
          fromHex_toHex (Nat.mod_lt _ (by norm_num)),
          fromHex_toHex (Nat.mod_lt _ (by norm_num)),
          fromHex_toHex (Nat.mod_lt _ (by norm_num))⟩
      obtain ⟨ha1, ha2, ha3, ha4⟩ := hd _ hhiv
      obtain ⟨hb1, hb2, hb3, hb4⟩ := hd _ hlov
      have hhi : 55296 ≤ (55296 + (c.toNat - 65536) / 1024) / 4096 % 16 * 4096 +
          (55296 + (c.toNat - 65536) / 1024) / 256 % 16 * 256 +
          (55296 + (c.toNat - 65536) / 1024) / 16 % 16 * 16 +
          (55296 + (c.toNat - 65536) / 1024) % 16 ∧
          (55296 + (c.toNat - 65536) / 1024) / 4096 % 16 * 4096 +
          (55296 + (c.toNat - 65536) / 1024) / 256 % 16 * 256 +
          (55296 + (c.toNat - 65536) / 1024) / 16 % 16 * 16 +
          (55296 + (c.toNat - 65536) / 1024) % 16 < 56320 := by
        rw [hex4_value hhiv]
        have : (c.toNat - 65536) / 1024 < 1024 := Nat.div_lt_of_lt_mul (by omega)
        omega
      have hlo : 56320 ≤ (56320 + (c.toNat - 65536) % 1024) / 4096 % 16 * 4096 +
          (56320 + (c.toNat - 65536) % 1024) / 256 % 16 * 256 +
          (56320 + (c.toNat - 65536) % 1024) / 16 % 16 * 16 +
          (56320 + (c.toNat - 65536) % 1024) % 16 ∧
          (56320 + (c.toNat - 65536) % 1024) / 4096 % 16 * 4096 +
          (56320 + (c.toNat - 65536) % 1024) / 256 % 16 * 256 +
          (56320 + (c.toNat - 65536) % 1024) / 16 % 16 * 16 +
          (56320 + (c.toNat - 65536) % 1024) % 16 < 57344 := by
        rw [hex4_value hlov]
        have : (c.toNat - 65536) % 1024 < 1024 := Nat.mod_lt _ (by norm_num)
        omega
      have hpair := jsonStringBody_u_pair f
        (toHexDigit ((55296 + (c.toNat - 65536) / 1024) / 4096 % 16))
        (toHexDigit ((55296 + (c.toNat - 65536) / 1024) / 256 % 16))
        (toHexDigit ((55296 + (c.toNat - 65536) / 1024) / 16 % 16))
        (toHexDigit ((55296 + (c.toNat - 65536) / 1024) % 16))
        (toHexDigit ((56320 + (c.toNat - 65536) % 1024) / 4096 % 16))
        (toHexDigit ((56320 + (c.toNat - 65536) % 1024) / 256 % 16))
        (toHexDigit ((56320 + (c.toNat - 65536) % 1024) / 16 % 16))
        (toHexDigit ((56320 + (c.toNat - 65536) % 1024) % 16))
        ((55296 + (c.toNat - 65536) / 1024) / 4096 % 16)
        ((55296 + (c.toNat - 65536) / 1024) / 256 % 16)
        ((55296 + (c.toNat - 65536) / 1024) / 16 % 16)
        ((55296 + (c.toNat - 65536) / 1024) % 16)
        ((56320 + (c.toNat - 65536) % 1024) / 4096 % 16)
        ((56320 + (c.toNat - 65536) % 1024) / 256 % 16)
        ((56320 + (c.toNat - 65536) % 1024) / 16 % 16)
        ((56320 + (c.toNat - 65536) % 1024) % 16)
        tl ha1 ha2 ha3 ha4 hb1 hb2 hb3 hb4 hhi hlo
      simp only [hex4, List.cons_append, List.nil_append] at hpair ⊢
      rw [hpair, hex4_value hhiv, hex4_value hlov]
      have harith : 65536 + (55296 + (c.toNat - 65536) / 1024 - 55296) * 1024 +
          (56320 + (c.toNat - 65536) % 1024 - 56320) = c.toNat := by
        have := Nat.div_add_mod (c.toNat - 65536) 1024
        omega
      rw [harith, Char.ofNat_toNat]
  · rw [encChar, if_neg hq, if_neg hbs, if_neg hn, if_neg hr, if_neg ht,
      if_neg h8, if_neg h12, if_neg hlow]
    simp only [List.cons_append, List.nil_append]
    simp only [jsonStringBody]
    rw [if_neg hq, if_neg hbs]

theorem encChar_length_pos (c : Char) : 0 < (encChar c).length := by
  unfold encChar
  split_ifs <;> simp [hex4]

theorem length_le_flatten_enc (s : List Char) :
    s.length ≤ ((s.map encChar).flatten).length := by
  induction s with
  | nil => simp
  | cons c cs ih =>
    simp only [List.map_cons, List.flatten_cons, List.length_cons, List.length_append]
    have := encChar_length_pos c
    omega

theorem jsonStringBody_roundtrip :
    ∀ (s : List Char) (rest : List Char) (fuel : Nat), s.length < fuel →
      jsonStringBody fuel ((s.map encChar).flatten ++ '"' :: rest) = some (s, rest) := by
  intro s
  induction s with
  | nil =>
    intro rest fuel h
    match fuel, h with
    | f + 1, _ => rfl
  | cons c cs ih =>
    intro rest fuel h
    match fuel, h with
    | f + 1, h =>
      simp only [List.map_cons, List.flatten_cons, List.append_assoc]
      rw [jsonStringBody_encChar, ih rest f (by simp at h; omega)]
      rfl

theorem encodeJsonString_eq (a : String) :
    encodeJsonString a = '"' :: ((a.data.map encChar).flatten ++ ['"']) := rfl

theorem skipJsonWS_quote (X : List Char) : skipJsonWS ('"' :: X) = '"' :: X := by
  simp [skipJsonWS, List.dropWhile, jsonWS]

theorem skipJsonWS_rbracket (X : List Char) : skipJsonWS (']' :: X) = ']' :: X := by
  simp [skipJsonWS, List.dropWhile, jsonWS]

theorem skipJsonWS_comma (X : List Char) : skipJsonWS (',' :: X) = ',' :: X := by
  simp [skipJsonWS, List.dropWhile, jsonWS]

theorem skipJsonWS_space (X : List Char) : skipJsonWS (' ' :: X) = skipJsonWS X := by
  simp [skipJsonWS, List.dropWhile, jsonWS]

theorem joinSep_enc_cons (b : String) (l : List String) :
    ∃ X, joinSep [',', ' '] ((b :: l).map encodeJsonString) = '"' :: X := by
  cases l with
  | nil => exact ⟨(b.data.map encChar).flatten ++ ['"'], rfl⟩
  | cons d l' =>
    refine ⟨((b.data.map encChar).flatten ++ ['"']) ++ [',', ' '] ++
      joinSep [',', ' '] ((d :: l').map encodeJsonString), ?_⟩
    simp [joinSep, encodeJsonString_eq]


theorem jsonArrayElems_enc :
    ∀ (l : List String) (rest : List Char) (fuel : Nat), l ≠ [] → l.length < fuel →
      jsonArrayElems fuel
        (joinSep [',', ' '] (l.map encodeJsonString) ++ ']' :: rest) = some (l, rest) := by
  intro l
  induction l with
  | nil => intro rest fuel h; exact absurd rfl h
  | cons a l' ih =>
    intro rest fuel _ hf
    match fuel, hf with
    | f + 1, hf =>
      cases l' with
      | nil =>
        simp only [List.map_cons, List.map_nil, joinSep, encodeJsonString_eq,
          List.cons_append, List.append_assoc, List.nil_append]
        have hb := jsonStringBody_roundtrip a.data (']' :: rest)
          (((a.data.map encChar).flatten ++ ('"' :: ']' :: rest)).length + 1)
          (by have := length_le_flatten_enc a.data
              simp only [List.length_append]
              omega)
        simp only [jsonArrayElems]
        rw [hb]
        simp only [Option.some_bind]
        rw [skipJsonWS_rbracket]
        simp
      | cons b l'' =>
        have hjoin : joinSep [',', ' '] ((a :: b :: l'').map encodeJsonString) =
            encodeJsonString a ++ [',', ' '] ++
              joinSep [',', ' '] ((b :: l'').map encodeJsonString) := by
          simp [joinSep]
        rw [hjoin, encodeJsonString_eq]
        simp only [List.cons_append, List.append_assoc, List.nil_append]
        have hb := jsonStringBody_roundtrip a.data
          (',' :: ' ' :: (joinSep [',', ' '] ((b :: l'').map encodeJsonString) ++
            ']' :: rest))
          (((a.data.map encChar).flatten ++ ('"' :: ',' :: ' ' ::
            (joinSep [',', ' '] ((b :: l'').map encodeJsonString) ++
              ']' :: rest))).length + 1)
          (by have := length_le_flatten_enc a.data
              simp only [List.length_append]
              omega)
        obtain ⟨X, hX⟩ := joinSep_enc_cons b l''
        have hT : skipJsonWS (joinSep [',', ' '] ((b :: l'').map encodeJsonString) ++
            ']' :: rest) =
            joinSep [',', ' '] ((b :: l'').map encodeJsonString) ++ ']' :: rest := by
          rw [hX, List.cons_append, skipJsonWS_quote, ← List.cons_append, ← hX]
        have hrec := ih rest f (by simp) (by simp at hf ⊢; omega)
        simp only [jsonArrayElems]
        rw [hb]
        simp only [Option.some_bind]
        rw [skipJsonWS_comma]
        simp only [List.take_succ_cons, List.take_zero, List.drop_succ_cons,
          List.drop_zero]
        rw [if_neg (show ¬([','] : List Char) = [']'] by decide),
          if_pos trivial, skipJsonWS_space, hT, hrec]
        rfl

theorem encodeJsonString_len (a : String) : 2 ≤ (encodeJsonString a).length := by
  simp [encodeJsonString]

theorem joinSep_enc_len (l : List String) :
    l.length ≤ (joinSep [',', ' '] (l.map encodeJsonString)).length := by
  induction l with
  | nil => simp [joinSep]
  | cons a l' ih =>
    cases l' with
    | nil =>
      have := encodeJsonString_len a
      simp only [List.map_cons, List.map_nil, joinSep, List.length_cons,
        List.length_nil]
      omega
    | cons b l'' =>
      have h1 := encodeJsonString_len a
      have hj : joinSep [',', ' '] ((a :: b :: l'').map encodeJsonString) =
          encodeJsonString a ++ [',', ' '] ++
            joinSep [',', ' '] ((b :: l'').map encodeJsonString) := by
        simp [joinSep]
      rw [hj]
      simp only [List.length_append, List.length_cons] at ih ⊢
      omega

theorem json_roundtrip (l : List String) :
    json_loads_strings (json_dumps_strings l) = some l := by
  cases l with
  | nil => rfl
  | cons a l' =>
    show jsonParseArrayBody
      (joinSep [',', ' '] ((a :: l').map encodeJsonString) ++ [']']) = some (a :: l')
    obtain ⟨X, hX⟩ := joinSep_enc_cons a l'
    have hskip : skipJsonWS
        (joinSep [',', ' '] ((a :: l').map encodeJsonString) ++ [']']) =
        joinSep [',', ' '] ((a :: l').map encodeJsonString) ++ [']'] := by
      rw [hX, List.cons_append, skipJsonWS_quote, ← List.cons_append, ← hX]
    unfold jsonParseArrayBody
    rw [hskip]
    rw [hX, List.cons_append]
    rw [if_neg (show ¬(List.take 1 ('"' :: (X ++ [']'])) = [']']) by simp)]
    rw [← List.cons_append, ← hX]
    have harr := jsonArrayElems_enc (a :: l') []
      ((joinSep [',', ' '] ((a :: l').map encodeJsonString) ++ [']']).length + 1)
      (by simp)
      (by have := joinSep_enc_len (a :: l')
          simp only [List.length_append, List.length_cons] at this ⊢
          omega)
    rw [harr]
    rfl

theorem json_dumps_ne_empty (l : List String) : json_dumps_strings l ≠ "" := by
  unfold json_dumps_strings
  intro h
  have h2 : ('[' :: joinSep [',', ' '] (l.map encodeJsonString) ++ [']']) =
      ([] : List Char) := congrArg String.data h
  simp at h2

/-! ### Store and retrieve -/

theorem store_get_roundtrip (db : MetaDB) (now : String) (m : MetadataDict) :
    get_metadata (store_metadata db now m) m.file_hash =
      some { file_hash := m.file_hash, filename := m.filename, subject := m.subject,
             summary := m.summary, date := m.date, sender := m.sender,
             recipient := m.recipient, document_type := m.document_type,
             tags := m.tags, error := m.error, last_updated := now } := by
  unfold get_metadata store_metadata dbUpsert dbLookup
  rw [List.find?_cons_of_pos _ (by simp)]
  simp only [Option.map_some']
  rw [if_pos (json_dumps_ne_empty m.tags), json_roundtrip]

/-! ### Shape of the hex digest -/

theorem foldl_append_eq (l : List (List Nat)) :
    ∀ acc : List Nat, l.foldl (fun a c => a ++ c) acc = acc ++ l.flatten := by
  induction l with
  | nil => intro acc; simp
  | cons x xs ih =>
    intro acc
    simp only [List.foldl_cons, List.flatten_cons, ih, List.append_assoc]

theorem chunksOfSucc_flatten {α : Type} (k : Nat) (l : List α) :
    (chunksOfSucc k l).flatten = l := by
  induction l using chunksOfSucc.induct k with
  | case1 => simp [chunksOfSucc]
  | case2 a l ih =>
    rw [chunksOfSucc]
    simp only [List.flatten_cons, ih, List.take_append_drop]

theorem toHexDigit_mem (n : Nat) : toHexDigit n ∈ hexDigits := by
  rcases Nat.lt_or_ge n 16 with h | h
  · interval_cases n <;> decide
  · unfold toHexDigit
    rw [List.getD_eq_default]
    · decide
    · simp only [hexDigits, List.length_cons, List.length_nil]
      omega

theorem hex4_length (n : Nat) : (hex4 n).length = 4 := rfl

theorem hex4_mem (n : Nat) : ∀ c ∈ hex4 n, c ∈ hexDigits := by
  intro c hc
  simp only [hex4, List.mem_cons, List.not_mem_nil, or_false] at hc
  rcases hc with rfl | rfl | rfl | rfl <;> exact toHexDigit_mem _

theorem wordHex8_length (w : Nat) : (wordHex8 w).length = 8 := rfl

theorem wordHex8_mem (w : Nat) : ∀ c ∈ wordHex8 w, c ∈ hexDigits := by
  intro c hc
  rcases List.mem_append.mp hc with h | h
  · exact hex4_mem _ c h
  · exact hex4_mem _ c h

theorem shaRound_length (st : List Nat) (kw : Nat × Nat) :
    (shaRound st kw).length = st.length := by
  unfold shaRound
  split <;> simp_all

theorem foldl_shaRound_length (l : List (Nat × Nat)) :
    ∀ st : List Nat, (l.foldl shaRound st).length = st.length := by
  induction l with
  | nil => intro st; rfl
  | cons x xs ih =>
    intro st
    rw [List.foldl_cons, ih, shaRound_length]

theorem shaCompress_length (hs block : List Nat) :
    (shaCompress hs block).length = hs.length := by
  unfold shaCompress
  rw [List.length_map, List.length_zip, foldl_shaRound_length]
  omega

theorem foldl_shaCompress_length (blocks : List (List Nat)) :
    ∀ hs : List Nat, (blocks.foldl shaCompress hs).length = hs.length := by
  induction blocks with
  | nil => intro hs; rfl
  | cons b bs ih =>
    intro hs
    rw [List.foldl_cons, ih, shaCompress_length]

theorem sha256Words_length (msg : List Nat) : (sha256Words msg).length = 8 := by
  unfold sha256Words
  rw [foldl_shaCompress_length]
  rfl

theorem sha256_hexdigest_length (msg : List Nat) :
    (sha256_hexdigest msg).length = 64 := by
  unfold sha256_hexdigest
  show ((sha256Words msg).map wordHex8).flatten.length = 64
  rw [List.length_flatten]
  have h8 : ((sha256Words msg).map wordHex8).map List.length =
      (sha256Words msg).map (fun _ => 8) := by
    rw [List.map_map]
    apply List.map_congr_left
    intro w _
    exact wordHex8_length w
  rw [h8, List.map_const', List.sum_replicate, sha256Words_length]
  norm_num

theorem sha256_hexdigest_mem (msg : List Nat) :
    ∀ c ∈ (sha256_hexdigest msg).data, c ∈ hexDigits := by
  intro c hc
  have hc2 : c ∈ ((sha256Words msg).map wordHex8).flatten := hc
  rw [List.mem_flatten] at hc2
  obtain ⟨l, hl, hcl⟩ := hc2
  rw [List.mem_map] at hl
  obtain ⟨w, -, rfl⟩ := hl
  exact wordHex8_mem w c hcl

/-! ### Accounting of the run loop -/

theorem runStep_spec (force : Bool) (now : String) (s : AppState) (f : FileEnv) :
    (runStep force now s f).status.processed = s.status.processed + 1 ∧
    (runStep force now s f).status.skipped = s.status.skipped +
      (if classifyFile force s.db f = FileClass.skipped then 1 else 0) ∧
    (runStep force now s f).status.errors = s.status.errors +
      (if classifyFile force s.db f = FileClass.errored then 1 else 0) ∧
    (runStep force now s f).db = stepDb force now s.db f ∧
    (runStep force now s f).status.stop_requested = s.status.stop_requested ∧
    (runStep force now s f).status.total = s.status.total ∧
    (runStep force now s f).status.is_running = s.status.is_running ∧
    (runStep force now s f).status.last_directory = s.status.last_directory := by
  unfold runStep classifyFile stepDb
  by_cases h1 : f.hash = ""
  · simp [h1]
  by_cases h2 : ((get_metadata s.db f.hash).isSome && !force) = true
  · simp [h1, h2]
  by_cases h4 : f.storeOk
  · cases ho : (process_pdf f.path f.hash f.vision).error with
    | some e => simp [h1, h2, h4, ho, apply_ite]
    | none => simp [h1, h2, h4, ho, apply_ite]
  · cases ho : (process_pdf f.path f.hash f.vision).error with
    | some e =>
      simp [h1, h2, h4, ho, apply_ite]
      split_ifs with hc
      · intro hpre
        exact absurd hc.2 (by simp [hpre hc.1])
      · intro hs hf
        exact absurd ⟨hs, hf⟩ hc
    | none =>
      simp [h1, h2, h4, ho, apply_ite]
      split_ifs with hc
      · intro hpre
        exact absurd hc.2 (by simp [hpre hc.1])
      · intro hs hf
        exact absurd ⟨hs, hf⟩ hc

theorem runFiles_no_stop (force : Bool) (stopSig : Nat → Bool) (now : String)
    (files : List FileEnv) :
    ∀ (i : Nat) (s : AppState), s.status.stop_requested = false →
      (∀ j, stopSig j = false) →
      runFiles force stopSig now i s files = files.foldl (runStep force now) s := by
  induction files with
  | nil => intro i s _ _; rfl
  | cons f rest ih =>
    intro i s hsr hall
    rw [runFiles, if_neg (by simp [hsr, hall i]), List.foldl_cons]
    exact ih (i + 1) (runStep force now s f)
      (by rw [(runStep_spec force now s f).2.2.2.2.1, hsr]) hall

theorem foldl_runStep_spec (force : Bool) (now : String) (files : List FileEnv) :
    ∀ s : AppState,
      (files.foldl (runStep force now) s).status.processed =
        s.status.processed + files.length ∧
      (files.foldl (runStep force now) s).status.skipped =
        s.status.skipped + (classifyCounts force now s.db files).1 ∧
      (files.foldl (runStep force now) s).status.errors =
        s.status.errors + (classifyCounts force now s.db files).2.2 := by
  induction files with
  | nil => intro s; simp [classifyCounts]
  | cons f rest ih =>
    intro s
    obtain ⟨hp, hsk, her, hdb, -, -, -, -⟩ := runStep_spec force now s f
    obtain ⟨ihp, ihsk, iher⟩ := ih (runStep force now s f)
    rw [List.foldl_cons, ihp, ihsk, iher, hp, hsk, her, hdb]
    rcases hc : classifyFile force s.db f with _ | _ | _ <;>
      simp [classifyCounts, hc, Nat.add_assoc, Nat.add_comm 1]

theorem classifyCounts_sum (force : Bool) (now : String) :
    ∀ (files : List FileEnv) (db : MetaDB),
      (classifyCounts force now db files).1 + (classifyCounts force now db files).2.1 +
        (classifyCounts force now db files).2.2 = files.length := by
  intro files
  induction files with
  | nil => intro db; rfl
  | cons f rest ih =>
    intro db
    have := ih (stepDb force now db f)
    rcases hc : classifyFile force db f with _ | _ | _ <;>
      simp [classifyCounts, hc] <;> omega

theorem runFiles_stop (force : Bool) (stopSig : Nat → Bool) (now : String) :
    ∀ (files : List FileEnv) (i k : Nat) (s : AppState),
      s.status.stop_requested = false →
      i < files.length →
      stopSig (k + i) = true →
      (∀ j, j < i → stopSig (k + j) = false) →
      runFiles force stopSig now k s files =
        { db := ((files.take i).foldl (runStep force now) s).db,
          status := { ((files.take i).foldl (runStep force now) s).status with
            is_running := false, current_file := "", stop_requested := false } } := by
  intro files
  induction files with
  | nil => intro i k s _ hi; exact absurd hi (by simp)
  | cons f rest ih =>
    intro i k s hsr hi hstop hbefore
    cases i with
    | zero =>
      rw [runFiles, if_pos (by simp [hsr]; simpa using hstop)]
      simp
    | succ i' =>
      have hk : stopSig k = false := by
        have := hbefore 0 (Nat.succ_pos i')
        simpa using this
      rw [runFiles, if_neg (by simp [hsr, hk])]
      rw [List.take_succ_cons, List.foldl_cons]
      apply ih i' (k + 1) (runStep force now s f)
        (by rw [(runStep_spec force now s f).2.2.2.2.1, hsr])
        (by simpa using hi)
        (by rw [show k + 1 + i' = k + (i' + 1) by omega]; exact hstop)
      intro j hj
      rw [show k + 1 + j = k + (j + 1) by omega]
      exact hbefore (j + 1) (by omega)

/-! ### The claims -/

/-- Claim C1 — the code violates it: for a file whose metadata extraction
fails during a web-app indexing run, `run_indexing` nevertheless calls
`db.store_metadata(result)` and persists a placeholder record for the
file's fingerprint (empty fields, `error` set), while also incrementing the
error counter.  Evaluated at a single-file run whose vision analysis fails:
a record for the fingerprint `"bb22"` exists after the run. -/
theorem claim_C1_failed_extraction_persisted :
    dbLookup (full_run "/docs" false (fun _ => false) "2024-01-01 00:00:00"
        true [exFileNoVision] []).db "bb22" =
      some { filename := some "/docs/scan.pdf", subject := some "",
             summary := some "", date := some "", sender := some "",
             recipient := some "", document_type := some "", tagsJson := "[]",
             error := some "Vision analysis failed - document not indexed",
             last_updated := "2024-01-01 00:00:00" } ∧
    (full_run "/docs" false (fun _ => false) "2024-01-01 00:00:00"
        true [exFileNoVision] []).status.errors = 1 := by
  decide

/-- Claim C2 — counterexample: starting the process over a persisted status
row with `is_running = true` does not force the flag back; `_create_table`'s
`INSERT OR IGNORE` leaves the stale row untouched, so the first status read
after startup reports `is_running = true`, contradicting the claim. -/
theorem claim_C2_counterexample :
    (startup_first_status
      (some { defaultStatusRow with is_running := true })).is_running = true := rfl

/-- Claim C2 — amended: startup creates the status row only when none
exists; a persisted row — including a stale `is_running = true` from an
unclean shutdown — is preserved unchanged, so the first status read after a
restart returns the persisted row verbatim (and only a fresh store reads
`is_running = false`). -/
theorem claim_C2_amended :
    (∀ row : IndexingStatus, startup_first_status (some row) = row) ∧
    startup_first_status none = defaultStatusRow ∧
    defaultStatusRow.is_running = false :=
  ⟨fun _ => rfl, rfl, rfl⟩

/-- Claim C3: for every query and record blob, the relevance score of
`_calculate_relevance_score` equals the sum of the four additive tiers
(+1000 exact phrase; +500 all of ≥2 terms present; +50 per found term with
+5 per extra occurrence and +10 for the first-20-words position bonus; +5
per close word from the fuzzy matcher for each term without an exact
match); a record with no exact and no fuzzy match scores 0, and every
record surviving into `search_metadata` results has a positive score.
`cm` is `difflib.get_close_matches(·, ·, n=5, cutoff=0.7)`, which returns
no matches on an empty word list. -/
theorem claim_C3_tiered_scoring
    (cm : List Char → List (List Char) → List (List Char))
    (query text : List Char) (hne : splitWS query ≠ [])
    (hcm : ∀ t, cm t [] = []) :
    calculate_relevance_score cm (lowerStr query) (splitWS query) text =
      specTier1 (lowerStr query) text + specTier2 (splitWS query) text +
        specTier3 (splitWS query) text + specTier4 cm (splitWS query) text ∧
    ((∀ t ∈ splitWS query, isSubstr (lowerStr t) text = false) →
      (∀ t ∈ splitWS query, cm (lowerStr t) (splitWS text) = []) →
      calculate_relevance_score cm (lowerStr query) (splitWS query) text = 0) ∧
    ∀ (qs : String) (limit : Nat) (docs : List SearchDoc) (h : SearchHit),
      h ∈ search_metadata cm qs limit docs → 0 < h.relevance_score := by
  refine ⟨calc_score_decomp cm query text hne hcm, ?_, ?_⟩
  · intro hnosub hnofuzzy
    unfold calculate_relevance_score
    by_cases htext : text = []
    · rw [if_pos htext]
    · rw [if_neg htext]
      obtain ⟨he, hf⟩ := tier4State_no_match cm query text hnosub hnofuzzy
      rw [if_neg (by simp [he, hf])]
  · intro qs limit docs h hmem
    unfold search_metadata at hmem
    by_cases hts : splitWS qs.data = []
    · rw [if_pos hts] at hmem
      exact absurd hmem (List.not_mem_nil h)
    · rw [if_neg hts] at hmem
      have hmem2 := List.mem_of_mem_take hmem
      rw [stableSort_mem, stableSort_mem] at hmem2
      obtain ⟨d, -, heq⟩ := List.mem_filterMap.mp hmem2
      by_cases hscore : 0 < calculate_relevance_score cm (lowerStr qs.data)
          (splitWS qs.data) (searchableText d)
      · rw [if_pos hscore] at heq
        cases heq
        exact hscore
      · rw [if_neg hscore] at heq
        exact absurd heq (by simp)

/-- Claim C3 — witness: hypotheses discharged at a concrete query and blob,
with the fuzzy matcher that returns no close matches. -/
theorem claim_C3_witness :
    splitWS ("tax".data) ≠ [] ∧
    calculate_relevance_score noFuzzy (lowerStr "tax".data) (splitWS "tax".data)
        ("tax day".data) =
      specTier1 (lowerStr "tax".data) ("tax day".data) +
        specTier2 (splitWS "tax".data) ("tax day".data) +
        specTier3 (splitWS "tax".data) ("tax day".data) +
        specTier4 noFuzzy (splitWS "tax".data) ("tax day".data) :=
  ⟨by decide,
    (claim_C3_tiered_scoring noFuzzy "tax".data "tax day".data (by decide)
      (fun _ => rfl)).1⟩

/-- Claim C4 — the code violates its stated tie-break: with two records of
equal relevance score, `search_metadata`'s pair of stable sorts leaves ties
ordered by `last_updated` ascending (oldest first), not descending: on input
`[newer, older]` the result comes back `[older, newer]`. -/
theorem claim_C4_tie_order_ascending :
    (search_metadata noFuzzy "invoice" 50 [exDocNew, exDocOld]).map
        (fun h => h.doc.last_updated) =
      ["2024-01-01 10:00:00", "2024-06-01 10:00:00"] := by
  decide

/-- Claim C5: the stop flag is read once per file boundary; at the first
boundary where it reads true (file index `i`), the run processes no further
files and leaves: the store exactly as after the first `i` files, and the
status with `is_running`, `stop_requested` and `current_file` cleared (the
`finally` block re-clears the first two fields idempotently). -/
theorem claim_C5_stop_semantics (path : String) (force : Bool)
    (stopSig : Nat → Bool) (now : String) (files : List FileEnv)
    (db : MetaDB) (i : Nat) (hi : i < files.length)
    (hstop : stopSig i = true) (hbefore : ∀ j, j < i → stopSig j = false) :
    full_run path force stopSig now true files db =
      { db := ((files.take i).foldl (runStep force now)
          { db := db, status := { start_indexing_status path with
              total := files.length } }).db,
        status := { ((files.take i).foldl (runStep force now)
            { db := db, status := { start_indexing_status path with
                total := files.length } }).status with
          is_running := false, current_file := "",
          stop_requested := false } } := by
  unfold full_run run_indexing
  rw [if_neg (by simp)]
  have hrf := runFiles_stop force stopSig now files i 0
    { db := db, status := { start_indexing_status path with total := files.length } }
    rfl hi (by simpa using hstop) (by intro j hj; simpa using hbefore j hj)
  simp only []
  rw [hrf]

/-- Claim C5 — witness: a three-file run with a stop signal arriving at the
second file boundary. -/
theorem claim_C5_witness :
    (fun j => decide (j = 1)) 1 = true ∧
    full_run "/d" false (fun j => decide (j = 1)) "2024-02-02 00:00:00" true
        [exFileOk, exFileDup, exFileNoVision] [] =
      { db := (([exFileOk, exFileDup, exFileNoVision].take 1).foldl
          (runStep false "2024-02-02 00:00:00")
          { db := [], status := { start_indexing_status "/d" with
              total := [exFileOk, exFileDup, exFileNoVision].length } }).db,
        status := { (([exFileOk, exFileDup, exFileNoVision].take 1).foldl
            (runStep false "2024-02-02 00:00:00")
            { db := [], status := { start_indexing_status "/d" with
                total := [exFileOk, exFileDup, exFileNoVision].length } }).status with
          is_running := false, current_file := "",
          stop_requested := false } } :=
  ⟨rfl, claim_C5_stop_semantics "/d" false (fun j => decide (j = 1))
    "2024-02-02 00:00:00" [exFileOk, exFileDup, exFileNoVision] [] 1
    (by decide) (by decide)
    (by intro j hj
        have hj0 : j = 0 := by omega
        subst hj0
        rfl)⟩

/-- Claim C6: a run that exhausts its file list without a stop satisfies
the accounting identity: `processed` equals the number of enumerated files,
`skipped` and `errors` match the spec-side tally in which every file is
classified as exactly one of skipped, succeeded or errored, and
`processed = skipped + succeeded + errors`. -/
theorem claim_C6_counter_identity (path : String) (force : Bool)
    (now : String) (stopSig : Nat → Bool) (files : List FileEnv)
    (db : MetaDB) (hns : ∀ j, stopSig j = false) :
    (full_run path force stopSig now true files db).status.processed =
      files.length ∧
    (full_run path force stopSig now true files db).status.skipped =
      (classifyCounts force now db files).1 ∧
    (full_run path force stopSig now true files db).status.errors =
      (classifyCounts force now db files).2.2 ∧
    (full_run path force stopSig now true files db).status.processed =
      (full_run path force stopSig now true files db).status.skipped +
        (classifyCounts force now db files).2.1 +
        (full_run path force stopSig now true files db).status.errors := by
  unfold full_run run_indexing
  rw [if_neg (by simp)]
  simp only []
  rw [runFiles_no_stop force stopSig now files 0
    { db := db, status := { start_indexing_status path with total := files.length } }
    rfl hns]
  obtain ⟨hp, hsk, her⟩ := foldl_runStep_spec force now files
    { db := db, status := { start_indexing_status path with total := files.length } }
  have hsum := classifyCounts_sum force now files db
  simp only [start_indexing_status] at hp hsk her
  refine ⟨?_, ?_, ?_, ?_⟩
  · simpa using hp
  · simpa using hsk
  · simpa using her
  · simp only []
    have e1 : (files.foldl (runStep force now)
        { db := db, status := { start_indexing_status path with
            total := files.length } }).status.processed = files.length := by
      simpa using hp
    have e2 : (files.foldl (runStep force now)
        { db := db, status := { start_indexing_status path with
            total := files.length } }).status.skipped =
        (classifyCounts force now db files).1 := by simpa using hsk
    have e3 : (files.foldl (runStep force now)
        { db := db, status := { start_indexing_status path with
            total := files.length } }).status.errors =
        (classifyCounts force now db files).2.2 := by simpa using her
    show (files.foldl (runStep force now) _).status.processed = _
    rw [e1, e2, e3]
    omega

/-- Claim C6 — witness: a run over one successful file, one duplicate of it
(skipped), and one unreadable file (errored). -/
theorem claim_C6_witness :
    (∀ j, (fun _ : Nat => false) j = false) ∧
    (full_run "/d" false (fun _ => false) "2024-03-03 00:00:00" true
        [exFileOk, exFileDup, exFileNoHash] []).status.processed =
      [exFileOk, exFileDup, exFileNoHash].length ∧
    (full_run "/d" false (fun _ => false) "2024-03-03 00:00:00" true
        [exFileOk, exFileDup, exFileNoHash] []).status.processed =
      (full_run "/d" false (fun _ => false) "2024-03-03 00:00:00" true
          [exFileOk, exFileDup, exFileNoHash] []).status.skipped +
        (classifyCounts false "2024-03-03 00:00:00" []
          [exFileOk, exFileDup, exFileNoHash]).2.1 +
        (full_run "/d" false (fun _ => false) "2024-03-03 00:00:00" true
            [exFileOk, exFileDup, exFileNoHash] []).status.errors := by
  have h := claim_C6_counter_identity "/d" false "2024-03-03 00:00:00"
    (fun _ => false) [exFileOk, exFileDup, exFileNoHash] [] (fun _ => rfl)
  exact ⟨fun _ => rfl, h.1, h.2.2.2⟩

/-- Claim C7 — counterexample: for an unreadable file the `open`/`read`
inside `generate_file_hash` does raise an `IOError`, but the function's
`except Exception` handler swallows it and the hasher returns the empty
string instead of failing with the exception, contradicting the claimed
`IOError` contract. -/
theorem claim_C7_counterexample :
    readFileChunks (fun _ => none) "missing.pdf" =
      Except.error (PyExn.ioError "missing.pdf") ∧
    generate_file_hash (fun _ => none) "missing.pdf" = "" :=
  ⟨rfl, rfl⟩

/-- Claim C7 — amended: the hasher reports an unreadable file by returning
the empty string (the internal `IOError` is caught); the orchestrator
treats an empty hash as "cannot be processed": the file contributes one
error and one processed, the store is untouched, the file is classified
errored, and the loop moves on to the remaining files without revisiting
it within the pass. -/
theorem claim_C7_hash_failure (fs : FileSystem) (p : String)
    (hun : fs p = none) (force : Bool) (now : String) (stopSig : Nat → Bool)
    (i : Nat) (s : AppState) (f : FileEnv) (rest : List FileEnv)
    (hf : f.hash = "") (hsr : s.status.stop_requested = false)
    (hsig : stopSig i = false) :
    generate_file_hash fs p = "" ∧
    (runStep force now s f).db = s.db ∧
    (runStep force now s f).status.errors = s.status.errors + 1 ∧
    (runStep force now s f).status.processed = s.status.processed + 1 ∧
    classifyFile force s.db f = FileClass.errored ∧
    runFiles force stopSig now i s (f :: rest) =
      runFiles force stopSig now (i + 1) (runStep force now s f) rest := by
  refine ⟨?_, ?_, ?_, ?_, ?_, ?_⟩
  · unfold generate_file_hash readFileChunks
    rw [hun]
  · unfold runStep
    simp [hf]
  · unfold runStep
    simp [hf]
  · unfold runStep
    simp [hf]
  · unfold classifyFile
    rw [if_pos hf]
  · rw [runFiles, if_neg (by simp [hsr, hsig])]

/-- Claim C7 — witness: the hypotheses discharged at an unreadable file and
a concrete run state. -/
theorem claim_C7_witness :
    (fun _ : String => (none : Option (List Nat))) "gone.pdf" = none ∧
    exFileNoHash.hash = "" ∧
    generate_file_hash (fun _ => none) "gone.pdf" = "" ∧
    (runStep false "2024-04-04 00:00:00"
        { db := [], status := defaultStatusRow } exFileNoHash).status.errors =
      defaultStatusRow.errors + 1 := by
  have h := claim_C7_hash_failure (fun _ => none) "gone.pdf" rfl false
    "2024-04-04 00:00:00" (fun _ => false) 0
    { db := [], status := defaultStatusRow } exFileNoHash [] rfl rfl rfl
  exact ⟨rfl, rfl, h.1, h.2.2.1⟩

/-- Claim C8: the content hasher is deterministic and path-independent —
two files with the same byte content produce the same fingerprint whatever
their paths — and every successful fingerprint is the 64-character
lowercase-hex rendering of a 256-bit digest. -/
theorem claim_C8_hash_deterministic (fs1 fs2 : FileSystem) (p1 p2 : String)
    (c : List Nat) (h1 : fs1 p1 = some c) (h2 : fs2 p2 = some c) :
    generate_file_hash fs1 p1 = generate_file_hash fs2 p2 ∧
    (generate_file_hash fs1 p1).length = 64 ∧
    ∀ ch ∈ (generate_file_hash fs1 p1).data, ch ∈ hexDigits := by
  have key : ∀ (fs : FileSystem) (p : String), fs p = some c →
      generate_file_hash fs p = sha256_hexdigest c := by
    intro fs p hp
    unfold generate_file_hash readFileChunks
    rw [hp]
    simp only []
    rw [foldl_append_eq, chunksOfSucc_flatten, List.nil_append]
  rw [key fs1 p1 h1, key fs2 p2 h2]
  exact ⟨rfl, sha256_hexdigest_length c, sha256_hexdigest_mem c⟩

/-- Claim C8 — witness: the same two bytes behind two different paths. -/
theorem claim_C8_witness :
    (fun _ : String => some [104, 105]) "a.pdf" = some [104, 105] ∧
    (fun _ : String => some [104, 105]) "b/renamed.pdf" = some [104, 105] ∧
    generate_file_hash (fun _ => some [104, 105]) "a.pdf" =
      generate_file_hash (fun _ => some [104, 105]) "b/renamed.pdf" ∧
    (generate_file_hash (fun _ => some [104, 105]) "a.pdf").length = 64 ∧
    ∀ ch ∈ (generate_file_hash (fun _ => some [104, 105]) "a.pdf").data,
      ch ∈ hexDigits := by
  have h := claim_C8_hash_deterministic (fun _ => some [104, 105])
    (fun _ => some [104, 105]) "a.pdf" "b/renamed.pdf" [104, 105] rfl rfl
  exact ⟨rfl, rfl, h.1, h.2.1, h.2.2⟩

/-- Claim C9: storing a metadata record and reading it back by its
fingerprint returns a record whose `filename`, `subject`, `summary`,
`date`, `sender`, `recipient`, `document_type`, `error` and `tags` equal
the stored values, the tags preserved element-for-element in order through
`json.dumps`/`json.loads`. -/
theorem claim_C9_store_get_roundtrip (db : MetaDB) (now : String)
    (m : MetadataDict) :
    get_metadata (store_metadata db now m) m.file_hash =
      some { file_hash := m.file_hash, filename := m.filename,
             subject := m.subject, summary := m.summary, date := m.date,
             sender := m.sender, recipient := m.recipient,
             document_type := m.document_type, tags := m.tags,
             error := m.error, last_updated := now } :=
  store_get_roundtrip db now m

/-- Claim C10: the single-document reindex path — the `/api/reindex`
endpoint plus its `reindex_single` background worker — never reads or
writes any `IndexingStatus` field: whatever the lookup, disk check,
connection test, extraction or storage outcome, the status row is exactly
the one from before the call. -/
theorem claim_C10_reindex_frame (s : AppState) (file_hash : String)
    (fileOnDisk : String → Bool) (connOk : Bool) (hash : String)
    (vision : Option ExtractedMeta) (storeOk : Bool) (now : String) :
    (reindex_document s file_hash fileOnDisk connOk hash vision storeOk
      now).status = s.status := by
  unfold reindex_document
  rcases hm : get_metadata s.db file_hash with - | meta
  · rfl
  · rcases hf : meta.filename with - | fn
    · simp [hf]
    · simp only [hf]
      split_ifs <;> rfl
